import Mathlib

/-!
Verification development for the three dataset converters of this repository:
`COCO/coco2sqlite_autodiscover.py`, `OpenImage/openimages_to_sqlite.py` and
`VOC/voc2sqlite.py`.  Each converter is shallowly embedded as pure functions
over explicit database states (tables as lists of rows, in insertion order).

Modelling conventions, shared by the three embeddings:
* Python floats are modelled as exact rationals (`Rat`); `int(...)` truncation
  toward zero is `pyTrunc`.  Fixed-point float rendering (`f"{q:.6f}"`,
  `json.dumps`) is abstracted to exact rational rendering — no claim below
  inspects the digits of those strings.
* SQLite semantics as exercised by the scripts: `INSERT OR IGNORE` skips the
  row on a PRIMARY KEY / UNIQUE / CHECK conflict; a FOREIGN KEY violation
  (the scripts run `PRAGMA foreign_keys = ON`) or a plain-`INSERT` UNIQUE
  conflict raises, modelled as `Except.error`, aborting the run.  A fresh
  rowid for an `INTEGER PRIMARY KEY` column is one past the current maximum.
* Filesystem-facing steps (directory scanning, `Path.exists`, reading CSV/XML)
  are modelled by taking the parsed records as input; the COCO
  directory-scanning fallback (`insert_images_by_scanning`), which feeds the
  same `insert_image_row`/`insert_split` helpers, has its source records
  outside the modelled input and is not modelled.
-/

/-- Exact rational addition, written out over numerators and denominators so
that it evaluates inside the kernel (`Rat.add` is `@[irreducible]`); proved
equal to `+` in `ratAdd_eq` below. -/
def ratAdd (a b : Rat) : Rat := mkRat (a.num * b.den + b.num * a.den) (a.den * b.den)

/-- Exact multiplication of a rational by a natural number, kernel-evaluable. -/
def ratMulNat (q : Rat) (n : Nat) : Rat := mkRat (q.num * n) q.den

/-- Python `int(...)` applied to a float/number: truncation toward zero. -/
def pyTrunc (q : Rat) : Int := if 0 ≤ q then Rat.floor q else -(Rat.floor (-q))

/-- Python truthiness filter for an optional string: `None` and `""` are falsy. -/
def pyStrTruthy : Option String → Option String
  | none => none
  | some s => if s = "" then none else some s

/-- Python `int(width) if width else None`: both `None` and `0` give `None`. -/
def pyOptInt : Option Int → Option Int
  | none => none
  | some x => if x = 0 then none else some x

/-- The CHECK constraint of the `splits` tables (COCO and VOC schemas):
`split IN ('train','val','trainval','test')`. -/
def splitAllowed (s : String) : Prop :=
  s = "train" ∨ s = "val" ∨ s = "trainval" ∨ s = "test"

instance (s : String) : Decidable (splitAllowed s) := by
  unfold splitAllowed; infer_instance

/-- Enumerate a list with indices starting from `n` (Python `enumerate(l, n)`). -/
def enumFromNat : Nat → List α → List (Nat × α)
  | _, [] => []
  | n, a :: l => (n, a) :: enumFromNat (n + 1) l

/-- Maximum of a list of SQLite integer keys, `0` when empty
(`COALESCE(MAX(k),0)`, and the basis of fresh-rowid assignment). -/
def maxNatKey (l : List Nat) : Nat := l.foldl max 0

/-- First value bound to `k` in an association list (Python `dict.get`;
the scripts only ever bind a key once in these dicts). -/
def lookupNat : List (String × Nat) → String → Option Nat
  | [], _ => none
  | p :: rest, k => if p.1 = k then some p.2 else lookupNat rest k

/-- First value bound to `k` in a string-valued association list. -/
def lookupStr : List (String × String) → String → Option String
  | [], _ => none
  | p :: rest, k => if p.1 = k then some p.2 else lookupStr rest k

/-- Python dict assignment `d[k] = v`: overwrite the binding if present,
else append it (insertion order preserved). -/
def assocSet (m : List (String × String)) (k v : String) : List (String × String) :=
  if ∃ p ∈ m, p.1 = k then m.map (fun p => if p.1 = k then (k, v) else p)
  else m ++ [(k, v)]

/-- Exact rational rendering, standing in for Python float `repr`. -/
def ratStr (q : Rat) : String :=
  if q.den = 1 then toString q.num else toString q.num ++ "/" ++ toString q.den

/-- Zero-pad a decimal numeral to six digits. -/
def natPad6 (n : Nat) : String :=
  let s := toString n
  if s.length < 6 then String.mk (List.replicate (6 - s.length) '0') ++ s else s

/-- Abstraction of Python `f"{q:.6f}"`: round to six decimal places
(half away from zero, over exact rationals) and render. -/
def fmt6 (q : Rat) : String :=
  let sgn := if q < 0 then "-" else ""
  let aq : Rat := if q < 0 then -q else q
  let scaled : Int := Rat.floor (ratAdd (ratMulNat aq 1000000) (mkRat 1 2))
  sgn ++ toString (scaled.toNat / 1000000) ++ "." ++ natPad6 (scaled.toNat % 1000000)

namespace COCO

/-- Row of the `Image` table (coco2sqlite_autodiscover.py, SCHEMA lines 22-27). -/
structure ImageRow where
  image_id : Int
  file_path : String
  width : Option Int
  height : Option Int
deriving DecidableEq

/-- Row of the `LabelClass` table (SCHEMA lines 28-31). -/
structure LabelRow where
  label_class_id : Int
  name : String
deriving DecidableEq

/-- Row of the `Annotation` table (SCHEMA lines 42-55). -/
structure AnnRow where
  annotation_id : Nat
  image_id : Int
  version_id : Nat
  annotator_id : Nat
  label_class_id : Int
  xmin : Option Int
  ymin : Option Int
  xmax : Option Int
  ymax : Option Int
  bbox : Option String
  mask_path : Option String
deriving DecidableEq

/-- The six tables of the COCO output database. `annotators` and `versions`
rows are (id, name, expertise/release_date). -/
structure DB where
  images : List ImageRow
  labelClasses : List LabelRow
  annotators : List (Nat × String × Option String)
  versions : List (Nat × String × Option String)
  annotations : List AnnRow
  splits : List (Int × String)
deriving DecidableEq

def emptyDB : DB := ⟨[], [], [], [], [], []⟩

/-- Source record of the COCO `images` JSON array (`im["id"]`, `im["file_name"]`,
`im.get("width")`, `im.get("height")`). -/
structure Image where
  id : Int
  file_name : String
  width : Option Int
  height : Option Int
deriving DecidableEq

/-- Source record of the COCO `annotations` JSON array: `a["bbox"] = [x,y,w,h]`,
`a["image_id"]`, `a["category_id"]`. -/
structure Ann where
  x : Rat
  y : Rat
  w : Rat
  h : Rat
  image_id : Int
  category_id : Int
deriving DecidableEq

/-- Source record of the COCO `categories` JSON array. -/
structure Cat where
  id : Int
  name : String
deriving DecidableEq

/-- One loaded annotation JSON: `images`, optional `annotations`
(tested with `"annotations" in data`), `categories` (`.get(..., [])`). -/
structure Data where
  images : List Image
  annotations : Option (List Ann)
  categories : List Cat
deriving DecidableEq

/-- The three optionally-present annotation JSONs discovered under the root.
`none` also covers a falsy (empty) JSON document. -/
structure Input where
  train : Option Data
  val : Option Data
  test : Option Data
deriving DecidableEq

/-- `ensure_static_rows` (lines 100-103): seed Annotator 1 and DatasetVersion 1. -/
def ensure_static_rows (db : DB) : DB :=
  { db with
    annotators := db.annotators ++ [(1, "COCO", some "crowd")]
    versions := db.versions ++ [(1, "COCO 2017", some "2017-09-01")] }

/-- `insert_categories` (lines 105-109): `INSERT OR IGNORE` into LabelClass,
conflicts on the id primary key or the UNIQUE name. -/
def insert_category (db : DB) (c : Cat) : DB :=
  if ∃ r ∈ db.labelClasses, r.label_class_id = c.id ∨ r.name = c.name then db
  else { db with labelClasses := db.labelClasses ++ [⟨c.id, c.name⟩] }

def insert_categories (db : DB) (cats : List Cat) : DB :=
  cats.foldl insert_category db

/-- `insert_image_row` (lines 111-115): `INSERT OR IGNORE` into Image,
conflicts on the image_id primary key or the UNIQUE file_path. -/
def insert_image_row (db : DB) (imageId : Int) (relPath : String) (w h : Option Int) : DB :=
  if ∃ r ∈ db.images, r.image_id = imageId ∨ r.file_path = relPath then db
  else { db with images := db.images ++ [⟨imageId, relPath, pyOptInt w, pyOptInt h⟩] }

/-- `insert_split` (lines 117-118): `INSERT OR IGNORE` into splits.  A FOREIGN
KEY violation still raises under OR IGNORE; a duplicate (image_id, split)
primary key or a CHECK violation is silently ignored.  (In reachable states a
duplicate key implies the image exists, so the branch order is immaterial.) -/
def insert_split (db : DB) (imageId : Int) (split : String) : Except String DB :=
  if ¬ ∃ r ∈ db.images, r.image_id = imageId then
    .error "FOREIGN KEY constraint failed"
  else if ∃ s ∈ db.splits, s.1 = imageId ∧ s.2 = split then .ok db
  else if ¬ splitAllowed split then .ok db
  else .ok { db with splits := db.splits ++ [(imageId, split)] }

/-- The relative path `f"{split}2017/{file_name}"` of `insert_images_from_ann`. -/
def relPathOf (split : String) (fileName : String) : String :=
  split ++ "2017/" ++ fileName

/-- The Image row produced for a source image record in a given split. -/
def renderImage (im : Image) (split : String) : ImageRow :=
  ⟨im.id, relPathOf split im.file_name, pyOptInt im.width, pyOptInt im.height⟩

/-- `insert_images_from_ann` (lines 120-128): insert the image row then its
split membership, per record. -/
def insert_images_from_ann (db : DB) (images : List Image) (split : String) :
    Except String DB :=
  match images with
  | [] => .ok db
  | im :: rest =>
    let db1 := insert_image_row db im.id (relPathOf split im.file_name) im.width im.height
    match insert_split db1 im.id split with
    | .error e => .error e
    | .ok db2 => insert_images_from_ann db2 rest split

/-- `SELECT COALESCE(MAX(annotation_id),0) FROM Annotation` (line 151). -/
def maxAnnId (anns : List AnnRow) : Nat :=
  anns.foldl (fun m a => max m a.annotation_id) 0

/-- The Annotation row inserted for record `a` with fresh id `nextId`
(lines 153-164): xmin/ymin truncate x/y, xmax/ymax truncate x+w/y+h,
bbox is `json.dumps([x,y,w,h])`. -/
def annRowOf (nextId : Nat) (a : Ann) : AnnRow :=
  { annotation_id := nextId
    image_id := a.image_id
    version_id := 1
    annotator_id := 1
    label_class_id := a.category_id
    xmin := some (pyTrunc a.x)
    ymin := some (pyTrunc a.y)
    xmax := some (pyTrunc (ratAdd a.x a.w))
    ymax := some (pyTrunc (ratAdd a.y a.h))
    bbox := some ("[" ++ ratStr a.x ++ ", " ++ ratStr a.y ++ ", " ++
                  ratStr a.w ++ ", " ++ ratStr a.h ++ "]")
    mask_path := none }

/-- The loop body of `insert_annotations`: each insert is checked against the
four FOREIGN KEYs (foreign_keys is ON); a violation raises and aborts.  The
explicit primary key `nextId` is always fresh by construction. -/
def annLoop (db : DB) (nextId : Nat) (anns : List Ann) : Except String DB :=
  match anns with
  | [] => .ok db
  | a :: rest =>
    if (∃ r ∈ db.images, r.image_id = a.image_id) ∧
       (∃ c ∈ db.labelClasses, c.label_class_id = a.category_id) ∧
       (∃ v ∈ db.versions, v.1 = 1) ∧ (∃ t ∈ db.annotators, t.1 = 1) then
      annLoop { db with annotations := db.annotations ++ [annRowOf nextId a] }
        (nextId + 1) rest
    else .error "FOREIGN KEY constraint failed"

/-- `insert_annotations` (lines 149-165): ids restart from one past the
current maximum annotation_id. -/
def insert_annotations (db : DB) (anns : List Ann) : Except String DB :=
  annLoop db (maxAnnId db.annotations + 1) anns

/-- `(train_data or val_data or {}).get("categories", [])` (line 183). -/
def catsOf (inp : Input) : List Cat :=
  match inp.train with
  | some t => t.categories
  | none =>
    match inp.val with
    | some v => v.categories
    | none => []

/-- One image-ingestion phase of `build` (lines 187-204), JSON branch. -/
def imagesStep (data : Option Data) (split : String) (db : DB) : Except String DB :=
  match data with
  | some d => insert_images_from_ann db d.images split
  | none => .ok db

/-- One annotation-ingestion phase of `build` (lines 207-210). -/
def annsStep (data : Option Data) (db : DB) : Except String DB :=
  match data with
  | some d =>
    match d.annotations with
    | some anns => insert_annotations db anns
    | none => .ok db
  | none => .ok db

/-- `build` (lines 167-219): schema, static rows, categories, images per
split (train, val, test), then train and val annotations. -/
def build (inp : Input) : Except String DB :=
  (imagesStep inp.train "train"
      (insert_categories (ensure_static_rows emptyDB) (catsOf inp))).bind fun db1 =>
    (imagesStep inp.val "val" db1).bind fun db2 =>
      (imagesStep inp.test "test" db2).bind fun db3 =>
        (annsStep inp.train db3).bind fun db4 =>
          annsStep inp.val db4

/-- The image records one phase ingests, paired with their split. -/
def pairsOf (data : Option Data) (split : String) : List (Image × String) :=
  match data with
  | some d => d.images.map (fun im => (im, split))
  | none => []

/-- The image records a run of `build` ingests, with their splits, in
processing order. -/
def ingested (inp : Input) : List (Image × String) :=
  pairsOf inp.train "train" ++ pairsOf inp.val "val" ++ pairsOf inp.test "test"

/-- The annotation batch one phase inserts. -/
def annsOf (data : Option Data) : List Ann :=
  match data with
  | some d => d.annotations.getD []
  | none => []

/-- The Annotation rows produced for a batch, ids counting up from `n`. -/
def annRows (n : Nat) : List Ann → List AnnRow
  | [] => []
  | a :: rest => annRowOf n a :: annRows (n + 1) rest

/-- Referential completeness of the Annotation table: every row's image_id,
version_id, annotator_id and label_class_id resolve to an existing row of the
respective table. -/
def refsOk (db : DB) : Prop :=
  ∀ a ∈ db.annotations,
    (∃ r ∈ db.images, r.image_id = a.image_id) ∧
    (∃ v ∈ db.versions, v.1 = a.version_id) ∧
    (∃ t ∈ db.annotators, t.1 = a.annotator_id) ∧
    (∃ c ∈ db.labelClasses, c.label_class_id = a.label_class_id)

/-- Modelled from the spec: the Image table holds exactly one row per distinct
natural key (the source integer id), the first occurrence winning on
duplicates.  Compared below with the table `build` actually produces. -/
def specImagesGo (acc : List ImageRow) : List (Image × String) → List ImageRow
  | [] => acc
  | (im, sp) :: rest =>
    if ∃ r ∈ acc, r.image_id = im.id then specImagesGo acc rest
    else specImagesGo (acc ++ [renderImage im sp]) rest

/-- The train/val annotation batches `build` inserts (empty when the JSON is
absent or has no `annotations` key). -/
def trainAnns (inp : Input) : List Ann := annsOf inp.train

def valAnns (inp : Input) : List Ann := annsOf inp.val

end COCO


namespace OI

/-- Settings of openimages_to_sqlite.py (lines 8-25). -/
def TARGET_IMAGE_COUNT : Nat := 17125

def DATASET_NAME : String := "OpenImagesV7 (boxes)"

def CLASS_DESCRIPTIONS : String := "data/oidv7-class-descriptions-boxable.csv"

def BOX_FILES : List (String × String) :=
  [("train", "data/train-annotations-bbox.csv"),
   ("validation", "data/validation-annotations-bbox.csv"),
   ("test", "data/test-annotations-bbox.csv")]

def IMAGE_INFO_FILES : List (String × String) :=
  [("train", "data/train-images-boxable-with-rotation.csv"),
   ("validation", "data/validation-images-with-rotation.csv"),
   ("test", "data/test-images-with-rotation.csv")]

/-- One image-info CSV row: `row["ImageID"]`, `row.get("Thumbnail300KURL")`,
`row.get("OriginalURL")` (the only fields the script reads). -/
structure InfoRow where
  imageID : String
  thumbnailURL : Option String
  originalURL : Option String
deriving DecidableEq

/-- One bounding-box CSV row: the fields the script reads. -/
structure BoxRow where
  imageID : String
  labelName : String
  xMin : Rat
  xMax : Rat
  yMin : Rat
  yMax : Rat
deriving DecidableEq

/-- Parsed input of one run: class-description CSV rows (raw string lists)
plus the three image-info and three box CSVs. -/
structure Input where
  classDesc : List (List String)
  trainInfo : List InfoRow
  valInfo : List InfoRow
  testInfo : List InfoRow
  trainBoxes : List BoxRow
  valBoxes : List BoxRow
  testBoxes : List BoxRow
deriving DecidableEq

/-- Row of the `Image` table (SCHEMA lines 38-43); width/height always NULL. -/
structure ImageRow where
  image_id : Nat
  file_path : String
  width : Option Int
  height : Option Int
deriving DecidableEq

/-- Row of the `Annotation` table (SCHEMA lines 62-75). -/
structure AnnRow where
  annotation_id : Nat
  image_id : Nat
  version_id : Nat
  annotator_id : Nat
  label_class_id : Nat
  xmin : Option Int
  ymin : Option Int
  xmax : Option Int
  ymax : Option Int
  bbox : Option String
  mask_path : Option String
deriving DecidableEq

/-- The six tables of the Open Images output database. -/
structure DB where
  images : List ImageRow
  labelClasses : List (Nat × String)
  annotators : List (Nat × String × Option String)
  versions : List (Nat × String × Option String)
  annotations : List AnnRow
  splits : List (Nat × String)
deriving DecidableEq

/-- `read_class_names` (lines 85-95): keep rows whose first column looks like
a MID (`startswith("/")`) and that have at least two columns. -/
def read_class_names (rows : List (List String)) : List (String × String) :=
  rows.foldl (fun acc row =>
    match row with
    | [] => acc
    | c :: rest =>
      if c.startsWith "/" ∧ rest.length + 1 ≥ 2 then assocSet acc c (rest.headD "")
      else acc) []

/-- `iter_image_info` (lines 97-104): rows of the three info CSVs tagged with
their split, in the fixed dict order train, validation, test. -/
def infoEntries (inp : Input) : List (String × InfoRow) :=
  inp.trainInfo.map (fun r => ("train", r)) ++
  inp.valInfo.map (fun r => ("validation", r)) ++
  inp.testInfo.map (fun r => ("test", r))

/-- `iter_boxes` (lines 106-113): rows of the three box CSVs tagged with their
split, in the fixed dict order train, validation, test. -/
def boxEntries (inp : Input) : List (String × BoxRow) :=
  inp.trainBoxes.map (fun r => ("train", r)) ++
  inp.valBoxes.map (fun r => ("validation", r)) ++
  inp.testBoxes.map (fun r => ("test", r))

/-- `row.get("Thumbnail300KURL") or row.get("OriginalURL")`, then the caller's
`if not file_url` skip: the usable URL of an info row, `none` when both
fields are missing or empty. -/
def fileUrl (r : InfoRow) : Option String :=
  match pyStrTruthy r.thumbnailURL with
  | some s => some s
  | none => pyStrTruthy r.originalURL

/-- One selected image: original ImageID, split, chosen URL. -/
structure Chosen where
  imageID : String
  split : String
  url : String
deriving DecidableEq

/-- Loop of `choose_images` (lines 115-128): skip already-chosen ids, skip
rows with no usable URL, stop once the limit is reached (checked after the
insertion). -/
def choose_images_go (limit : Nat) : List (String × InfoRow) → List Chosen → List Chosen
  | [], chosen => chosen
  | (split, r) :: rest, chosen =>
    if ∃ c ∈ chosen, c.imageID = r.imageID then choose_images_go limit rest chosen
    else
      match fileUrl r with
      | none => choose_images_go limit rest chosen
      | some url =>
        let chosen' := chosen ++ [(⟨r.imageID, split, url⟩ : Chosen)]
        if limit ≤ chosen'.length then chosen' else choose_images_go limit rest chosen'

def choose_images (entries : List (String × InfoRow)) (limit : Nat) : List Chosen :=
  choose_images_go limit entries []

/-- Image/splits insertion loop of `main` (lines 155-166): assign integer
image ids in insertion order, record Image rows (width/height NULL), splits
rows, and the ImageID-to-integer map. -/
def imageLoop : Nat → List Chosen →
    List ImageRow × List (Nat × String) × List (String × Nat)
  | _, [] => ([], [], [])
  | n, c :: rest =>
    let (imgs, sps, m) := imageLoop (n + 1) rest
    (⟨n, c.url, none, none⟩ :: imgs, (n, c.split) :: sps, (c.imageID, n) :: m)

/-- Mutable state of the box-insertion loop of `main` (lines 168-206). -/
structure BoxState where
  labelToInt : List (String × Nat)
  nextLabelInt : Nat
  annPk : Nat
  labelClasses : List (Nat × String)
  annotations : List AnnRow
deriving DecidableEq

/-- The bbox text `f"{xmin:.6f},{ymin:.6f},{xmax:.6f},{ymax:.6f}"` (line 196). -/
def bboxStrOf (b : BoxRow) : String :=
  fmt6 b.xMin ++ "," ++ fmt6 b.yMin ++ "," ++ fmt6 b.xMax ++ "," ++ fmt6 b.yMax

/-- Box-insertion loop of `main`: skip boxes of unselected images; create the
label class on first sight (display name looked up by MID, falling back to
the MID); insert the Annotation row with NULL numeric coordinates and the
normalized textual bbox. -/
def boxLoop (midToName : List (String × String)) (imap : List (String × Nat)) :
    BoxState → List (String × BoxRow) → BoxState
  | st, [] => st
  | st, (_, b) :: rest =>
    match lookupNat imap b.imageID with
    | none => boxLoop midToName imap st rest
    | some imgInt =>
      match lookupNat st.labelToInt b.labelName with
      | some labelInt =>
        boxLoop midToName imap
          { st with
            annotations := st.annotations ++
              [⟨st.annPk, imgInt, 1, 1, labelInt, none, none, none, none,
                some (bboxStrOf b), none⟩]
            annPk := st.annPk + 1 } rest
      | none =>
        let disp := (lookupStr midToName b.labelName).getD b.labelName
        let labelInt := st.nextLabelInt
        boxLoop midToName imap
          { st with
            labelToInt := st.labelToInt ++ [(b.labelName, labelInt)]
            labelClasses := st.labelClasses ++ [(labelInt, disp)]
            nextLabelInt := st.nextLabelInt + 1
            annotations := st.annotations ++
              [⟨st.annPk, imgInt, 1, 1, labelInt, none, none, none, none,
                some (bboxStrOf b), none⟩]
            annPk := st.annPk + 1 } rest

/-- The database a run of `main` writes, given the parsed inputs
(the `with conn:` block, lines 149-206). -/
def buildDb (inp : Input) : DB :=
  let midToName := read_class_names inp.classDesc
  let picked := choose_images (infoEntries inp) TARGET_IMAGE_COUNT
  let (imgs, sps, imap) := imageLoop 1 picked
  let st := boxLoop midToName imap ⟨[], 1, 1, [], []⟩ (boxEntries inp)
  { images := imgs
    labelClasses := st.labelClasses
    annotators := [(1, "OpenImages", some "verified/mixed")]
    versions := [(1, DATASET_NAME, some "2022-10-01")]
    annotations := st.annotations
    splits := sps }

/-- The configured CSV paths, in the order `main` checks them (line 132). -/
def requiredPaths : List String :=
  CLASS_DESCRIPTIONS :: (BOX_FILES.map (fun p => p.2) ++ IMAGE_INFO_FILES.map (fun p => p.2))

/-- The sanity check of `main` (lines 131-134): raise `FileNotFoundError` at
the first configured path that does not exist. -/
def checkFiles (existing : List String) : Except String Unit :=
  match requiredPaths.find? (fun p => ¬ existing.contains p) with
  | some p => .error ("Missing required CSV: " ++ p)
  | none => .ok ()

/-- `main` (lines 130-209) as a state transformer on the output-file slot:
the file check runs first; only afterwards (lines 143-144) is a pre-existing
output database unlinked and rebuilt.  Returns the run result and the final
content of the output path. -/
def main (existing : List String) (inp : Input) (prevOut : Option DB) :
    Except String DB × Option DB :=
  match checkFiles existing with
  | .error e => (.error e, prevOut)
  | .ok _ => (.ok (buildDb inp), some (buildDb inp))

end OI

namespace VOC

/-- `VOC_CLASSES` (voc2sqlite.py lines 8-12). -/
def VOC_CLASSES : List String :=
  ["aeroplane", "bicycle", "bird", "boat", "bottle", "bus", "car", "cat", "chair",
   "cow", "diningtable", "dog", "horse", "motorbike", "person", "pottedplant",
   "sheep", "sofa", "train", "tvmonitor"]

/-- One `<object>` element after `parse_annotation` truncated its box with
`int(float(...))` (lines 95-103); the name is already
`(obj.findtext("name") or "").strip()`.  The four coordinates are jointly
present (a missing `<bndbox>` leaves all four `None`; a `<bndbox>` with a
missing child would raise during parsing). -/
structure Obj where
  name : String
  bnd : Option (Rat × Rat × Rat × Rat)
deriving DecidableEq

/-- Python `int(float(t))` on the four box coordinates. -/
def truncBox : Option (Rat × Rat × Rat × Rat) → Option (Int × Int × Int × Int)
  | none => none
  | some (a, b, c, d) => some (pyTrunc a, pyTrunc b, pyTrunc c, pyTrunc d)

/-- One annotation XML file: its path stem, the optional `<filename>` text,
the optional `<size>` (width, height) and its objects. -/
structure Xml where
  stem : String
  filename : Option String
  size : Option (Int × Int)
  objects : List Obj
deriving DecidableEq

/-- Parsed input of one `build_db` run: the dataset root path, the annotation
XMLs in sorted order, the four split id sets (lines already stripped and
filtered non-empty by `read_split_ids`), and the stems that have a
`SegmentationClass/<stem>.png` mask. -/
structure Input where
  root : String
  xmls : List Xml
  trainIds : List String
  valIds : List String
  trainvalIds : List String
  testIds : List String
  segStems : List String
deriving DecidableEq

/-- Row of the VOC `Image` table. -/
structure ImageRow where
  image_id : Nat
  file_path : String
  width : Option Int
  height : Option Int
deriving DecidableEq

/-- Row of the VOC `Annotation` table. -/
structure AnnRow where
  annotation_id : Nat
  image_id : Nat
  version_id : Nat
  annotator_id : Nat
  label_class_id : Nat
  xmin : Option Int
  ymin : Option Int
  xmax : Option Int
  ymax : Option Int
  bbox : Option String
  mask_path : Option String
deriving DecidableEq

/-- The six tables of the VOC output database. -/
structure DB where
  images : List ImageRow
  labelClasses : List (Nat × String)
  annotators : List (Nat × String × Option String)
  versions : List (Nat × String × Option String)
  annotations : List AnnRow
  splits : List (Nat × String)
deriving DecidableEq

/-- The twenty pre-seeded LabelClass rows
(`enumerate(VOC_CLASSES, start=1)`, lines 132-133). -/
def seedLabels : List (Nat × String) := enumFromNat 1 VOC_CLASSES

/-- The database right after the seeding block (lines 131-143). -/
def seededDB : DB :=
  { images := []
    labelClasses := seedLabels
    annotators := [(1, "VOC System", some "N/A")]
    versions := [(1, "VOC2012", some "2012-05-11")]
    annotations := []
    splits := [] }

/-- `if not filename: filename = f"{xmlf.stem}.jpg"` (lines 153-154). -/
def filenameOf (x : Xml) : String :=
  match pyStrTruthy x.filename with
  | some f => f
  | none => x.stem ++ ".jpg"

/-- `pathlib.Path(name).stem`: the file name without its last extension
(names here are plain `stem.jpg`-style file names). -/
def pathStem (s : String) : String :=
  let cs := s.toList
  if cs.contains '.' then
    String.mk (((cs.reverse.dropWhile (fun c => !(c == '.'))).drop 1).reverse)
  else s

/-- `img_dir / filename` with `img_dir = voc_root / "JPEGImages"` (line 155). -/
def imgPathOf (root : String) (x : Xml) : String :=
  root ++ "/JPEGImages/" ++ filenameOf x

/-- The Image row `build_db` inserts for one XML, given its assigned rowid. -/
def renderImage (root : String) (n : Nat) (x : Xml) : ImageRow :=
  ⟨n, imgPathOf root x, (x.size.map (fun p => p.1)), (x.size.map (fun p => p.2))⟩

/-- The fixed split processing order (line 146). -/
def split_names : List String := ["train", "val", "trainval", "test"]

/-- The pre-read id set of one split (`read_split_ids`, lines 106-111). -/
def splitIds (inp : Input) (s : String) : List String :=
  if s = "train" then inp.trainIds
  else if s = "val" then inp.valIds
  else if s = "trainval" then inp.trainvalIds
  else if s = "test" then inp.testIds
  else []

/-- `INSERT OR IGNORE INTO splits` (line 168): skip on a duplicate
(image_id, split) key or a CHECK violation.  The referenced image always
exists here (the row was just inserted), so no FK case arises. -/
def insertSplitRow (db : DB) (imageId : Nat) (s : String) : DB :=
  if ∃ p ∈ db.splits, p.1 = imageId ∧ p.2 = s then db
  else if ¬ splitAllowed s then db
  else { db with splits := db.splits ++ [(imageId, s)] }

/-- The `for sname, idset in split_idsets.items()` loop (lines 165-168). -/
def insertSplits (inp : Input) (db : DB) (imageId : Nat) (stem : String) : DB :=
  split_names.foldl
    (fun d s => if (splitIds inp s).contains stem then insertSplitRow d imageId s else d) db

/-- The `SELECT label_class_id FROM LabelClass WHERE name=?` lookup followed,
when absent, by `INSERT INTO LabelClass(name) VALUES (?)` and
`last_insert_rowid()` (lines 177-183). -/
def getOrCreateLabel (db : DB) (name : String) : DB × Nat :=
  match db.labelClasses.find? (fun p => p.2 = name) with
  | some p => (db, p.1)
  | none =>
    let newId := maxNatKey (db.labelClasses.map (fun p => p.1)) + 1
    ({ db with labelClasses := db.labelClasses ++ [(newId, name)] }, newId)

/-- `f"{xmin},{ymin},{xmax},{ymax}"` when all four are present (lines 185-187). -/
def bboxStrOf : Option (Int × Int × Int × Int) → Option String
  | none => none
  | some (a, b, c, d) =>
    some (toString a ++ "," ++ toString b ++ "," ++ toString c ++ "," ++ toString d)

/-- The per-object loop (lines 175-195): resolve or create the label class,
then insert one Annotation row (auto-increment id, version 1, annotator 1). -/
def processObjs (db : DB) (imageId : Nat) (maskStr : Option String) :
    List Obj → DB
  | [] => db
  | o :: rest =>
    let (db1, labelId) := getOrCreateLabel db o.name
    let bnd := truncBox o.bnd
    let annId := maxNatKey (db1.annotations.map (fun a => a.annotation_id)) + 1
    let row : AnnRow :=
      { annotation_id := annId
        image_id := imageId
        version_id := 1
        annotator_id := 1
        label_class_id := labelId
        xmin := bnd.map (fun b => b.1)
        ymin := bnd.map (fun b => b.2.1)
        xmax := bnd.map (fun b => b.2.2.1)
        ymax := bnd.map (fun b => b.2.2.2)
        bbox := bboxStrOf bnd
        mask_path := maskStr }
    processObjs { db1 with annotations := db1.annotations ++ [row] } imageId maskStr rest

/-- Processing of one XML (lines 151-195): plain `INSERT INTO Image` — a
duplicate UNIQUE file_path raises and aborts the run — then splits, mask
path, and one Annotation per object. -/
def processXml (inp : Input) (db : DB) (x : Xml) : Except String DB :=
  let path := imgPathOf inp.root x
  if ∃ r ∈ db.images, r.file_path = path then
    .error "UNIQUE constraint failed: Image.file_path"
  else
    let imageId := maxNatKey (db.images.map (fun r => r.image_id)) + 1
    let db1 : DB := { db with images := db.images ++ [renderImage inp.root imageId x] }
    let stem := pathStem (filenameOf x)
    let db2 := insertSplits inp db1 imageId stem
    let maskStr :=
      if inp.segStems.contains stem then
        some (inp.root ++ "/SegmentationClass/" ++ stem ++ ".png")
      else none
    .ok (processObjs db2 imageId maskStr x.objects)

/-- The `for xmlf in xml_files` loop of `build_db`. -/
def buildGo (inp : Input) (db : DB) : List Xml → Except String DB
  | [] => .ok db
  | x :: rest =>
    match processXml inp db x with
    | .error e => .error e
    | .ok db' => buildGo inp db' rest

/-- `build_db` (lines 113-198): fresh schema, seed rows, then the per-XML
loop.  (The Annotations/JPEGImages existence check and output-file unlink
precede this and do not affect the produced tables.) -/
def build_db (inp : Input) : Except String DB :=
  buildGo inp seededDB inp.xmls

end VOC

namespace OI

/-- The first info row carrying a given ImageID together with a usable URL:
the row whose data a `choose_images` selection for that id records. -/
def findFirstUrl : List (String × InfoRow) → String → Option (String × InfoRow)
  | [], _ => none
  | e :: rest, i =>
    if e.2.imageID = i ∧ (fileUrl e.2).isSome then some e else findFirstUrl rest i

/-- The input with every bounding-box row of one ImageID removed. -/
def dropBoxes (inp : Input) (i : String) : Input :=
  { inp with
    trainBoxes := inp.trainBoxes.filter (fun b => !(b.imageID == i))
    valBoxes := inp.valBoxes.filter (fun b => !(b.imageID == i))
    testBoxes := inp.testBoxes.filter (fun b => !(b.imageID == i)) }

/-- Referential completeness of the Open Images Annotation table. -/
def refsOk (db : DB) : Prop :=
  ∀ a ∈ db.annotations,
    (∃ r ∈ db.images, r.image_id = a.image_id) ∧
    (∃ v ∈ db.versions, v.1 = a.version_id) ∧
    (∃ t ∈ db.annotators, t.1 = a.annotator_id) ∧
    (∃ c ∈ db.labelClasses, c.1 = a.label_class_id)

/-- Invariant of the box-insertion loop: the label map targets existing
LabelClass rows, and every Annotation row references a mapped image id, the
seeded version and annotator, an existing label class, and stores its box
only textually. -/
def boxInv (imap : List (String × Nat)) (st : BoxState) : Prop :=
  (∀ p ∈ st.labelToInt, ∃ q ∈ st.labelClasses, q.1 = p.2) ∧
  (∀ a ∈ st.annotations,
    (∃ p ∈ imap, p.2 = a.image_id) ∧ a.version_id = 1 ∧ a.annotator_id = 1 ∧
    (∃ q ∈ st.labelClasses, q.1 = a.label_class_id) ∧
    a.xmin = none ∧ a.ymin = none ∧ a.xmax = none ∧ a.ymax = none ∧ a.bbox.isSome)

end OI

namespace VOC

/-- Referential completeness of the VOC Annotation table. -/
def refsOk (db : DB) : Prop :=
  ∀ a ∈ db.annotations,
    (∃ r ∈ db.images, r.image_id = a.image_id) ∧
    (∃ v ∈ db.versions, v.1 = a.version_id) ∧
    (∃ t ∈ db.annotators, t.1 = a.annotator_id) ∧
    (∃ c ∈ db.labelClasses, c.1 = a.label_class_id)

/-- Shape of a VOC Annotation row's box storage: either all four numeric
fields and the textual bbox are present (XML had a `<bndbox>`), or all five
are NULL. -/
def annShape (a : AnnRow) : Prop :=
  (a.xmin.isSome ∧ a.ymin.isSome ∧ a.xmax.isSome ∧ a.ymax.isSome ∧ a.bbox.isSome) ∨
  (a.xmin = none ∧ a.ymin = none ∧ a.xmax = none ∧ a.ymax = none ∧ a.bbox = none)

/-- Invariant of the VOC LabelClass table: the twenty seeds form a prefix,
every later row has an id above 20, and names are unique. -/
def lcInv (lcs : List (Nat × String)) : Prop :=
  (∃ extra, lcs = seedLabels ++ extra ∧ ∀ p ∈ extra, 20 < p.1) ∧
  (lcs.map (fun p => p.2)).Nodup

/-- Invariant carried through the per-XML loop of `build_db`. -/
def master (db : DB) : Prop :=
  maxNatKey (db.images.map (fun r => r.image_id)) = db.images.length ∧
  (db.images.map (fun r => r.file_path)).Nodup ∧
  lcInv db.labelClasses ∧
  (1, "VOC2012", some "2012-05-11") ∈ db.versions ∧
  (1, "VOC System", some "N/A") ∈ db.annotators ∧
  refsOk db ∧
  (∀ a ∈ db.annotations, annShape a) ∧
  (∀ s ∈ db.splits, splitAllowed s.2) ∧
  db.splits.Nodup

end VOC

/-! Concrete inputs used by the witness and counterexample theorems below. -/

def cocoW : COCO.Input :=
  ⟨some ⟨[⟨1, "a.jpg", some 10, some 20⟩], some [⟨0, 0, 5, 5, 1, 7⟩], [⟨7, "cat"⟩]⟩,
   some ⟨[⟨2, "b.jpg", none, none⟩], some [⟨1, 1, 2, 2, 2, 7⟩], [⟨7, "cat"⟩]⟩,
   none⟩

def cocoWdb : COCO.DB := (COCO.build cocoW).toOption.getD COCO.emptyDB

def oiW : OI.Input :=
  ⟨[["/m/x", "Cat"]], [⟨"A", some "u", none⟩], [⟨"B", none, some "v"⟩], [],
   [⟨"A", "/m/x", mkRat 1 10, mkRat 2 10, mkRat 3 10, mkRat 4 10⟩],
   [⟨"C", "/m/x", 0, 1, 0, 1⟩], []⟩

def oiWann : OI.AnnRow :=
  ((OI.buildDb oiW).annotations).headD ⟨0, 0, 0, 0, 0, none, none, none, none, none, none⟩

def vocW : VOC.Input :=
  ⟨"VOC2012",
   [⟨"000001", some "000001.jpg", some (353, 500),
     [⟨"person", some (1, 2, 3, 4)⟩, ⟨"dog", some (5, 6, 7, 8)⟩, ⟨"zebra", none⟩]⟩],
   ["000001"], [], [], [], []⟩

def vocWdb : VOC.DB := (VOC.build_db vocW).toOption.getD VOC.seededDB

/-- A database state with one image and one label class, against which a
single COCO annotation insert succeeds. -/
def cocoC4db : COCO.DB :=
  ⟨[⟨1, "val2017/a.jpg", none, none⟩], [⟨1, "cat"⟩], [(1, "COCO", some "crowd")],
   [(1, "COCO 2017", some "2017-09-01")], [], []⟩

/-- A COCO annotation record with the fractional box `[0, 0, 0.5, 0.5]`. -/
def cocoC4ann : COCO.Ann := ⟨0, 0, mkRat 1 2, mkRat 1 2, 1, 1⟩

/-- A COCO annotation record with the integral box `[3, 4, 5, 6]`. -/
def cocoC4intAnn : COCO.Ann := ⟨3, 4, 5, 6, 1, 1⟩

def cocoC4wdb : COCO.DB :=
  (COCO.insert_annotations cocoC4db [cocoC4intAnn]).toOption.getD COCO.emptyDB

def oiC7inp : OI.Input := ⟨[], [], [⟨"A", some "u", none⟩], [], [], [], []⟩

def oiC8inp : OI.Input :=
  ⟨[], [⟨"A", some "u", none⟩], [], [],
   [⟨"A", "/m/x", mkRat 1 10, mkRat 2 10, mkRat 3 10, mkRat 4 10⟩], [], []⟩

/-- Two info rows for the same ImageID: the first with both URL fields
missing, the second with a thumbnail URL. -/
def oiC10inp : OI.Input := ⟨[], [⟨"A", none, none⟩, ⟨"A", some "u", none⟩], [], [], [], [], []⟩

/-- ImageID "A" appears once, with no usable URL; "B" is selectable. -/
def oiC10winp : OI.Input :=
  ⟨[], [⟨"A", none, none⟩, ⟨"B", some "u", none⟩], [], [],
   [⟨"A", "/m/x", 0, 1, 0, 1⟩, ⟨"B", "/m/y", 0, 1, 0, 1⟩], [], []⟩

/-- A filesystem where the six box/info CSVs exist but the class-descriptions
CSV does not. -/
def oiC9existing : List String :=
  OI.BOX_FILES.map (fun p => p.2) ++ OI.IMAGE_INFO_FILES.map (fun p => p.2)

def oiC9prev : Option OI.DB := some (OI.buildDb oiC7inp)

def cocoWann : COCO.AnnRow :=
  (cocoWdb.annotations).headD ⟨0, 0, 0, 0, 0, none, none, none, none, none, none⟩

def vocWann : VOC.AnnRow :=
  (vocWdb.annotations).headD ⟨0, 0, 0, 0, 0, none, none, none, none, none, none⟩

/-! Helper lemmas about the shared list utilities. -/

theorem maxNatKey_snoc (l : List Nat) (a : Nat) :
    maxNatKey (l ++ [a]) = max (maxNatKey l) a := by
  simp [maxNatKey, List.foldl_append]

theorem init_le_foldl_max (l : List Nat) : ∀ m : Nat, m ≤ l.foldl max m := by
  induction l with
  | nil => intro m; simp
  | cons a l ih =>
    intro m
    calc m ≤ max m a := le_max_left m a
    _ ≤ l.foldl max (max m a) := ih (max m a)

theorem le_maxNatKey {l : List Nat} {x : Nat} (h : x ∈ l) : x ≤ maxNatKey l := by
  unfold maxNatKey
  generalize 0 = m
  induction l generalizing m with
  | nil => cases h
  | cons a l ih =>
    cases h with
    | head =>
      calc x ≤ max m x := le_max_right m x
      _ ≤ l.foldl max (max m x) := init_le_foldl_max l (max m x)
    | tail _ h' => exact ih h' (max m a)

theorem foldl_max_range' (k : Nat) : ∀ m : Nat, List.foldl max m (List.range' (m + 1) k) = m + k := by
  induction k with
  | zero => intro m; simp [List.range']
  | succ k ih =>
    intro m
    have h1 : List.range' (m + 1) (k + 1) = (m + 1) :: List.range' (m + 2) k := rfl
    have h2 : max m (m + 1) = m + 1 := by omega
    calc List.foldl max m (List.range' (m + 1) (k + 1))
        = List.foldl max (max m (m + 1)) (List.range' (m + 2) k) := by rw [h1]; rfl
      _ = List.foldl max (m + 1) (List.range' ((m + 1) + 1) k) := by rw [h2]
      _ = (m + 1) + k := ih (m + 1)
      _ = m + (k + 1) := by omega

theorem range1_append (m : Nat) : ∀ s n : Nat,
    List.range' s m ++ List.range' (s + m) n = List.range' s (m + n) := by
  induction m with
  | zero => intro s n; simp [List.range']
  | succ m ih =>
    intro s n
    have h1 : List.range' s (m + 1) = s :: List.range' (s + 1) m := rfl
    have h0 : m + 1 + n = (m + n) + 1 := by omega
    have h2 : List.range' s ((m + n) + 1) = s :: List.range' (s + 1) (m + n) := rfl
    rw [h1, h0, h2, List.cons_append]
    have h3 : s + (m + 1) = (s + 1) + m := by omega
    rw [h3, ih (s + 1) n]

theorem nodup_map_eq {α β : Type} {f : α → β} :
    ∀ {l : List α}, (l.map f).Nodup → ∀ {a b : α}, a ∈ l → b ∈ l → f a = f b → a = b := by
  intro l
  induction l with
  | nil => intro _ a b ha; cases ha
  | cons x l ih =>
    intro h a b ha hb hf
    rw [List.map_cons, List.nodup_cons] at h
    cases ha with
    | head =>
      cases hb with
      | head => rfl
      | tail _ hb' => exact absurd (hf ▸ List.mem_map_of_mem f hb') h.1
    | tail _ ha' =>
      cases hb with
      | head => exact absurd (hf ▸ List.mem_map_of_mem f ha') h.1
      | tail _ hb' => exact ih h.2 ha' hb' hf

theorem enumFromNat_map_fst {α : Type} : ∀ (n : Nat) (l : List α),
    (enumFromNat n l).map Prod.fst = List.range' n l.length := by
  intro n l
  induction l generalizing n with
  | nil => rfl
  | cons a l ih => simp [enumFromNat, List.range'_succ, ih]

theorem enumFromNat_length {α : Type} : ∀ (n : Nat) (l : List α),
    (enumFromNat n l).length = l.length := by
  intro n l
  induction l generalizing n with
  | nil => rfl
  | cons a l ih => simp [enumFromNat, ih]

theorem enumFromNat_mem {α : Type} {p : Nat × α} :
    ∀ {n : Nat} {l : List α}, p ∈ enumFromNat n l → p.2 ∈ l := by
  intro n l
  induction l generalizing n with
  | nil => intro h; cases h
  | cons a l ih =>
    intro h
    cases h with
    | head => exact List.mem_cons_self _ _
    | tail _ h' => exact List.mem_cons_of_mem _ (ih h')

theorem lookupNat_some_mem : ∀ {m : List (String × Nat)} {k : String} {v : Nat},
    lookupNat m k = some v → (k, v) ∈ m := by
  intro m
  induction m with
  | nil => intro k v h; cases h
  | cons p rest ih =>
    intro k v h
    obtain ⟨p1, p2⟩ := p
    unfold lookupNat at h
    split at h
    · rename_i heq
      injection h with h'
      subst heq h'
      exact List.mem_cons_self _ _
    · exact List.mem_cons_of_mem _ (ih h)

theorem lookupNat_none_of_not_mem : ∀ {m : List (String × Nat)} {k : String},
    (∀ p ∈ m, p.1 ≠ k) → lookupNat m k = none := by
  intro m
  induction m with
  | nil => intro k _; rfl
  | cons p rest ih =>
    intro k h
    unfold lookupNat
    split
    · rename_i heq; exact absurd heq (h p (List.mem_cons_self _ _))
    · exact ih (fun q hq => h q (List.mem_cons_of_mem _ hq))

theorem lookupNat_isSome_iff {m : List (String × Nat)} {k : String} :
    (lookupNat m k).isSome = true ↔ ∃ p ∈ m, p.1 = k := by
  induction m with
  | nil => simp [lookupNat]
  | cons p rest ih =>
    unfold lookupNat
    split
    · rename_i heq; simp
      exact Or.inl heq
    · rename_i hne
      simp only [ih]
      constructor
      · rintro ⟨q, hq, hqk⟩; exact ⟨q, List.mem_cons_of_mem _ hq, hqk⟩
      · rintro ⟨q, hq, hqk⟩
        cases hq with
        | head => exact absurd hqk hne
        | tail _ hq' => exact ⟨q, hq', hqk⟩

theorem ratFloor_eq_floor (q : Rat) : Rat.floor q = ⌊q⌋ := rfl

theorem ratAdd_eq (a b : Rat) : ratAdd a b = a + b := by
  unfold ratAdd
  rw [Rat.mkRat_eq_div]
  have ha : ((a.den : ℚ)) ≠ 0 := by
    exact_mod_cast a.den_nz
  have hb : ((b.den : ℚ)) ≠ 0 := by
    exact_mod_cast b.den_nz
  conv_rhs => rw [← Rat.num_div_den a, ← Rat.num_div_den b]
  push_cast
  field_simp

theorem pyTrunc_intCast (n : Int) : pyTrunc (n : Rat) = n := by
  unfold pyTrunc
  rw [ratFloor_eq_floor, ratFloor_eq_floor]
  split
  · simp
  · rw [← Int.cast_neg, Int.floor_intCast]
    omega

theorem pyTrunc_cast_add (xi wi : Int) :
    pyTrunc ((xi : Rat) + (wi : Rat)) = pyTrunc (xi : Rat) + wi := by
  rw [← Int.cast_add, pyTrunc_intCast, pyTrunc_intCast]

namespace COCO

theorem specGo_append (l₁ : List (Image × String)) : ∀ (acc : List ImageRow) (l₂ : List (Image × String)),
    specImagesGo acc (l₁ ++ l₂) = specImagesGo (specImagesGo acc l₁) l₂ := by
  induction l₁ with
  | nil => intro acc l₂; rfl
  | cons p l ih =>
    intro acc l₂
    obtain ⟨im, sp⟩ := p
    by_cases hc : ∃ r ∈ acc, r.image_id = im.id
    · simp only [List.cons_append, specImagesGo, if_pos hc]
      exact ih acc l₂
    · simp only [List.cons_append, specImagesGo, if_neg hc]
      exact ih _ l₂

theorem specGo_prefix (l : List (Image × String)) : ∀ acc : List ImageRow,
    ∃ t, specImagesGo acc l = acc ++ t := by
  induction l with
  | nil => intro acc; exact ⟨[], by simp [specImagesGo]⟩
  | cons p l ih =>
    intro acc
    obtain ⟨im, sp⟩ := p
    by_cases hc : ∃ r ∈ acc, r.image_id = im.id
    · obtain ⟨t, ht⟩ := ih acc
      exact ⟨t, by simp only [specImagesGo, if_pos hc]; exact ht⟩
    · obtain ⟨t, ht⟩ := ih (acc ++ [renderImage im sp])
      refine ⟨[renderImage im sp] ++ t, ?_⟩
      simp only [specImagesGo, if_neg hc]
      rw [ht, List.append_assoc]

theorem specGo_nodup (l : List (Image × String)) : ∀ acc : List ImageRow,
    (acc.map (fun r => r.image_id)).Nodup →
    ((specImagesGo acc l).map (fun r => r.image_id)).Nodup := by
  induction l with
  | nil => intro acc h; exact h
  | cons p l ih =>
    intro acc h
    obtain ⟨im, sp⟩ := p
    by_cases hc : ∃ r ∈ acc, r.image_id = im.id
    · simp only [specImagesGo, if_pos hc]
      exact ih acc h
    · simp only [specImagesGo, if_neg hc]
      refine ih _ ?_
      simp only [List.map_append, List.map_cons, List.map_nil]
      rw [List.nodup_append]
      refine ⟨h, List.nodup_singleton _, ?_⟩
      intro x hx hx'
      simp only [List.mem_singleton] at hx'
      obtain ⟨r, hr, hrid⟩ := List.mem_map.mp hx
      refine hc ⟨r, hr, ?_⟩
      rw [hrid, hx']
      rfl

theorem specGo_complete (l : List (Image × String)) : ∀ (acc : List ImageRow) (p : Image × String),
    p ∈ l → ∃ row ∈ specImagesGo acc l, row.image_id = p.1.id := by
  induction l with
  | nil => intro acc p hp; cases hp
  | cons q l ih =>
    intro acc p hp
    obtain ⟨im, sp⟩ := q
    by_cases hc : ∃ r ∈ acc, r.image_id = im.id
    · simp only [specImagesGo, if_pos hc]
      cases hp with
      | head =>
        obtain ⟨r, hr, hrid⟩ := hc
        obtain ⟨t, ht⟩ := specGo_prefix l acc
        exact ⟨r, ht ▸ List.mem_append_left t hr, hrid⟩
      | tail _ hp' => exact ih acc p hp'
    · simp only [specImagesGo, if_neg hc]
      cases hp with
      | head =>
        obtain ⟨t, ht⟩ := specGo_prefix l (acc ++ [renderImage im sp])
        refine ⟨renderImage im sp, ?_, rfl⟩
        rw [ht]
        exact List.mem_append_left t (List.mem_append_right acc (List.mem_singleton_self _))
      | tail _ hp' => exact ih _ p hp'

theorem specGo_from (l : List (Image × String)) : ∀ (acc : List ImageRow) (row : ImageRow),
    row ∈ specImagesGo acc l → row ∈ acc ∨ ∃ p ∈ l, row = renderImage p.1 p.2 := by
  induction l with
  | nil => intro acc row h; exact Or.inl h
  | cons q l ih =>
    intro acc row h
    obtain ⟨im, sp⟩ := q
    by_cases hc : ∃ r ∈ acc, r.image_id = im.id
    · simp only [specImagesGo, if_pos hc] at h
      rcases ih acc row h with h' | ⟨p, hp, hpr⟩
      · exact Or.inl h'
      · exact Or.inr ⟨p, List.mem_cons_of_mem _ hp, hpr⟩
    · simp only [specImagesGo, if_neg hc] at h
      rcases ih _ row h with h' | ⟨p, hp, hpr⟩
      · rcases List.mem_append.mp h' with h'' | h''
        · exact Or.inl h''
        · exact Or.inr ⟨(im, sp), List.mem_cons_self _ _, List.mem_singleton.mp h''⟩
      · exact Or.inr ⟨p, List.mem_cons_of_mem _ hp, hpr⟩

theorem specGo_len (l : List (Image × String)) : ∀ acc : List ImageRow,
    (specImagesGo acc l).length ≤ acc.length + l.length := by
  induction l with
  | nil => intro acc; simp [specImagesGo]
  | cons q l ih =>
    intro acc
    obtain ⟨im, sp⟩ := q
    by_cases hc : ∃ r ∈ acc, r.image_id = im.id
    · simp only [specImagesGo, if_pos hc, List.length_cons]
      have := ih acc
      omega
    · simp only [specImagesGo, if_neg hc, List.length_cons]
      have := ih (acc ++ [renderImage im sp])
      simp only [List.length_append, List.length_singleton] at this
      omega

theorem insert_split_ok {db : DB} {i : Int} {s : String} {db' : DB}
    (h : insert_split db i s = .ok db') :
    (∃ r ∈ db.images, r.image_id = i) ∧
    db'.images = db.images ∧ db'.labelClasses = db.labelClasses ∧
    db'.annotators = db.annotators ∧ db'.versions = db.versions ∧
    db'.annotations = db.annotations ∧
    (db'.splits = db.splits ∨
      (db'.splits = db.splits ++ [(i, s)] ∧ splitAllowed s ∧ (i, s) ∉ db.splits)) := by
  unfold insert_split at h
  split at h
  · cases h
  · rename_i hex
    rw [not_not] at hex
    split at h
    · injection h with h; subst h
      exact ⟨hex, rfl, rfl, rfl, rfl, rfl, Or.inl rfl⟩
    · rename_i hdup
      split at h
      · injection h with h; subst h
        exact ⟨hex, rfl, rfl, rfl, rfl, rfl, Or.inl rfl⟩
      · rename_i hallow
        rw [not_not] at hallow
        injection h with h; subst h
        refine ⟨hex, rfl, rfl, rfl, rfl, rfl, Or.inr ⟨rfl, hallow, ?_⟩⟩
        intro hmem
        exact hdup ⟨(i, s), hmem, rfl, rfl⟩

theorem from_ann_ok : ∀ (recs : List Image) (db db' : DB) (sp : String),
    insert_images_from_ann db recs sp = .ok db' →
    db'.images = specImagesGo db.images (recs.map (fun im => (im, sp))) ∧
    db'.labelClasses = db.labelClasses ∧ db'.annotators = db.annotators ∧
    db'.versions = db.versions ∧ db'.annotations = db.annotations ∧
    (∀ p ∈ db'.splits, p ∈ db.splits ∨ (p.2 = sp ∧ splitAllowed sp)) ∧
    (db.splits.Nodup → db'.splits.Nodup) := by
  intro recs
  induction recs with
  | nil =>
    intro db db' sp h
    injection h with h; subst h
    exact ⟨rfl, rfl, rfl, rfl, rfl, fun p hp => Or.inl hp, fun h => h⟩
  | cons im rest ih =>
    intro db db' sp h
    simp only [insert_images_from_ann] at h
    split at h
    · cases h
    · rename_i db2 hsp
      obtain ⟨hex, h2i, h2l, h2t, h2v, h2a, h2s⟩ := insert_split_ok hsp
      obtain ⟨hri, hrl, hrt, hrv, hra, hrs, hrn⟩ := ih db2 db' sp h
      by_cases hc : ∃ r ∈ db.images, r.image_id = im.id
      · have hskip : insert_image_row db im.id (relPathOf sp im.file_name) im.width im.height = db := by
          unfold insert_image_row
          rw [if_pos]
          obtain ⟨r, hr, hrid⟩ := hc
          exact ⟨r, hr, Or.inl hrid⟩
        rw [hskip] at h2i h2l h2t h2v h2a h2s hex
        refine ⟨?_, hrl.trans h2l, hrt.trans h2t, hrv.trans h2v, hra.trans h2a, ?_, ?_⟩
        · rw [hri, h2i]
          simp only [List.map_cons, specImagesGo, if_pos hc]
        · intro p hp
          rcases hrs p hp with hp' | hp'
          · rcases h2s with hsame | ⟨happ, hall, _⟩
            · rw [hsame] at hp'; exact Or.inl hp'
            · rw [happ] at hp'
              rcases List.mem_append.mp hp' with h'' | h''
              · exact Or.inl h''
              · have hp2 : p = (im.id, sp) := List.mem_singleton.mp h''
                exact Or.inr ⟨by rw [hp2], hall⟩
          · exact Or.inr hp'
        · intro hnd
          refine hrn ?_
          rcases h2s with hsame | ⟨happ, _, hfresh⟩
          · rw [hsame]; exact hnd
          · rw [happ, List.nodup_append]
            refine ⟨hnd, List.nodup_singleton _, fun x hx hx' => ?_⟩
            rw [List.mem_singleton.mp hx'] at hx
            exact hfresh hx
      · by_cases hpath : ∃ r ∈ db.images, r.file_path = relPathOf sp im.file_name
        · have hskip : insert_image_row db im.id (relPathOf sp im.file_name) im.width im.height = db := by
            unfold insert_image_row
            rw [if_pos]
            obtain ⟨r, hr, hrp⟩ := hpath
            exact ⟨r, hr, Or.inr hrp⟩
          rw [hskip] at hex
          exact absurd hex hc
        · have hins : insert_image_row db im.id (relPathOf sp im.file_name) im.width im.height =
              { db with images := db.images ++ [renderImage im sp] } := by
            unfold insert_image_row
            rw [if_neg]
            · rfl
            · rintro ⟨r, hr, hid | hp⟩
              · exact hc ⟨r, hr, hid⟩
              · exact hpath ⟨r, hr, hp⟩
          rw [hins] at h2i h2l h2t h2v h2a h2s
          refine ⟨?_, hrl.trans h2l, hrt.trans h2t, hrv.trans h2v, hra.trans h2a, ?_, ?_⟩
          · rw [hri, h2i]
            simp only [List.map_cons, specImagesGo, if_neg hc]
          · intro p hp
            rcases hrs p hp with hp' | hp'
            · rcases h2s with hsame | ⟨happ, hall, _⟩
              · rw [hsame] at hp'; exact Or.inl hp'
              · rw [happ] at hp'
                rcases List.mem_append.mp hp' with h'' | h''
                · exact Or.inl h''
                · have hp2 : p = (im.id, sp) := List.mem_singleton.mp h''
                  exact Or.inr ⟨by rw [hp2], hall⟩
            · exact Or.inr hp'
          · intro hnd
            refine hrn ?_
            rcases h2s with hsame | ⟨happ, _, hfresh⟩
            · rw [hsame]; exact hnd
            · rw [happ, List.nodup_append]
              refine ⟨hnd, List.nodup_singleton _, fun x hx hx' => ?_⟩
              rw [List.mem_singleton.mp hx'] at hx
              exact hfresh hx

theorem imagesStep_ok {data : Option Data} {sp : String} {db db' : DB}
    (h : imagesStep data sp db = .ok db') :
    db'.images = specImagesGo db.images (pairsOf data sp) ∧
    db'.labelClasses = db.labelClasses ∧ db'.annotators = db.annotators ∧
    db'.versions = db.versions ∧ db'.annotations = db.annotations ∧
    (∀ p ∈ db'.splits, p ∈ db.splits ∨ (p.2 = sp ∧ splitAllowed sp)) ∧
    (db.splits.Nodup → db'.splits.Nodup) := by
  cases data with
  | none =>
    injection h with h; subst h
    exact ⟨rfl, rfl, rfl, rfl, rfl, fun p hp => Or.inl hp, fun h => h⟩
  | some d => exact from_ann_ok d.images db db' sp h

end COCO

namespace COCO

theorem insert_categories_fields (cats : List Cat) : ∀ db : DB,
    (insert_categories db cats).images = db.images ∧
    (insert_categories db cats).annotators = db.annotators ∧
    (insert_categories db cats).versions = db.versions ∧
    (insert_categories db cats).annotations = db.annotations ∧
    (insert_categories db cats).splits = db.splits := by
  induction cats with
  | nil => intro db; exact ⟨rfl, rfl, rfl, rfl, rfl⟩
  | cons c cats ih =>
    intro db
    have hstep : (insert_category db c).images = db.images ∧
        (insert_category db c).annotators = db.annotators ∧
        (insert_category db c).versions = db.versions ∧
        (insert_category db c).annotations = db.annotations ∧
        (insert_category db c).splits = db.splits := by
      unfold insert_category
      split
      · exact ⟨rfl, rfl, rfl, rfl, rfl⟩
      · exact ⟨rfl, rfl, rfl, rfl, rfl⟩
    obtain ⟨h1, h2, h3, h4, h5⟩ := ih (insert_category db c)
    obtain ⟨g1, g2, g3, g4, g5⟩ := hstep
    exact ⟨h1.trans g1, h2.trans g2, h3.trans g3, h4.trans g4, h5.trans g5⟩

theorem insert_categories_mem (cats : List Cat) : ∀ (db : DB) (c : LabelRow),
    c ∈ (insert_categories db cats).labelClasses →
    c ∈ db.labelClasses ∨ ∃ k ∈ cats, c.label_class_id = k.id ∧ c.name = k.name := by
  induction cats with
  | nil => intro db c h; exact Or.inl h
  | cons k cats ih =>
    intro db c h
    rcases ih (insert_category db k) c h with h' | ⟨k', hk', hc⟩
    · unfold insert_category at h'
      split at h'
      · exact Or.inl h'
      · rcases List.mem_append.mp h' with h'' | h''
        · exact Or.inl h''
        · rw [List.mem_singleton.mp h'']
          exact Or.inr ⟨k, List.mem_cons_self _ _, rfl, rfl⟩
    · exact Or.inr ⟨k', List.mem_cons_of_mem _ hk', hc⟩

theorem annLoop_ok : ∀ (anns : List Ann) (db db' : DB) (n : Nat),
    annLoop db n anns = .ok db' →
    db'.images = db.images ∧ db'.labelClasses = db.labelClasses ∧
    db'.annotators = db.annotators ∧ db'.versions = db.versions ∧
    db'.splits = db.splits ∧
    db'.annotations = db.annotations ++ annRows n anns := by
  intro anns
  induction anns with
  | nil =>
    intro db db' n h
    injection h with h; subst h
    exact ⟨rfl, rfl, rfl, rfl, rfl, by simp [annRows]⟩
  | cons a rest ih =>
    intro db db' n h
    unfold annLoop at h
    split at h
    · obtain ⟨h1, h2, h3, h4, h5, h6⟩ := ih _ db' (n + 1) h
      refine ⟨h1, h2, h3, h4, h5, ?_⟩
      rw [h6]
      simp [annRows, List.append_assoc]
    · cases h

theorem annLoop_refs : ∀ (anns : List Ann) (db db' : DB) (n : Nat),
    annLoop db n anns = .ok db' → refsOk db → refsOk db' := by
  intro anns
  induction anns with
  | nil =>
    intro db db' n h hr
    injection h with h; subst h
    exact hr
  | cons a rest ih =>
    intro db db' n h hr
    unfold annLoop at h
    split at h
    · rename_i hfk
      refine ih _ db' (n + 1) h ?_
      intro b hb
      rcases List.mem_append.mp hb with hb' | hb'
      · exact hr b hb'
      · rw [List.mem_singleton.mp hb']
        exact ⟨hfk.1, hfk.2.2.1, hfk.2.2.2, hfk.2.1⟩
    · cases h

theorem annRows_ids : ∀ (anns : List Ann) (n : Nat),
    (annRows n anns).map (fun r => r.annotation_id) = List.range' n anns.length := by
  intro anns
  induction anns with
  | nil => intro n; rfl
  | cons a rest ih =>
    intro n
    have : List.range' n (rest.length + 1) = n :: List.range' (n + 1) rest.length := rfl
    simp only [annRows, List.map_cons, List.length_cons, this, ih (n + 1)]
    rfl

theorem annRows_mem : ∀ {anns : List Ann} {a : Ann}, a ∈ anns →
    ∀ n : Nat, ∃ k, annRowOf k a ∈ annRows n anns := by
  intro anns
  induction anns with
  | nil => intro a h; cases h
  | cons b rest ih =>
    intro a h n
    cases h with
    | head => exact ⟨n, List.mem_cons_self _ _⟩
    | tail _ h' =>
      obtain ⟨k, hk⟩ := ih h' (n + 1)
      exact ⟨k, List.mem_cons_of_mem _ hk⟩

theorem maxAnnId_eq (l : List AnnRow) :
    maxAnnId l = (l.map (fun r => r.annotation_id)).foldl max 0 := by
  rw [List.foldl_map]
  rfl

theorem maxAnnId_annRows (anns : List Ann) : maxAnnId (annRows 1 anns) = anns.length := by
  rw [maxAnnId_eq, annRows_ids anns 1]
  have := foldl_max_range' anns.length 0
  simpa using this

theorem annsStep_ok {data : Option Data} {db db' : DB} (h : annsStep data db = .ok db') :
    db'.images = db.images ∧ db'.labelClasses = db.labelClasses ∧
    db'.annotators = db.annotators ∧ db'.versions = db.versions ∧
    db'.splits = db.splits ∧
    db'.annotations = db.annotations ++ annRows (maxAnnId db.annotations + 1) (annsOf data) ∧
    (refsOk db → refsOk db') := by
  cases data with
  | none =>
    injection h with h; subst h
    exact ⟨rfl, rfl, rfl, rfl, rfl, by simp [annsOf, annRows], fun hr => hr⟩
  | some d =>
    cases hanns : d.annotations with
    | none =>
      simp only [annsStep, hanns] at h
      injection h with h; subst h
      exact ⟨rfl, rfl, rfl, rfl, rfl, by simp [annsOf, hanns, annRows], fun hr => hr⟩
    | some anns =>
      simp only [annsStep, hanns] at h
      unfold insert_annotations at h
      obtain ⟨h1, h2, h3, h4, h5, h6⟩ := annLoop_ok anns db db' _ h
      exact ⟨h1, h2, h3, h4, h5, by simpa [annsOf, hanns] using h6,
        fun hr => annLoop_refs anns db db' _ h hr⟩

end COCO

namespace COCO

theorem build_ok : ∀ (inp : Input) (db : DB), build inp = .ok db →
    db.images = specImagesGo [] (ingested inp) ∧
    (∀ c ∈ db.labelClasses, ∃ k ∈ catsOf inp, c.label_class_id = k.id ∧ c.name = k.name) ∧
    db.annotators = [(1, "COCO", some "crowd")] ∧
    db.versions = [(1, "COCO 2017", some "2017-09-01")] ∧
    db.annotations =
      annRows 1 (trainAnns inp) ++ annRows ((trainAnns inp).length + 1) (valAnns inp) ∧
    (∀ p ∈ db.splits, splitAllowed p.2) ∧
    db.splits.Nodup ∧
    refsOk db := by
  intro inp db h
  unfold build at h
  cases h1 : imagesStep inp.train "train"
      (insert_categories (ensure_static_rows emptyDB) (catsOf inp)) with
  | error e => rw [h1] at h; exact Except.noConfusion h
  | ok db1 =>
  rw [h1] at h
  simp only [Except.bind] at h
  cases h2 : imagesStep inp.val "val" db1 with
  | error e => rw [h2] at h; exact Except.noConfusion h
  | ok db2 =>
  rw [h2] at h
  simp only [Except.bind] at h
  cases h3 : imagesStep inp.test "test" db2 with
  | error e => rw [h3] at h; exact Except.noConfusion h
  | ok db3 =>
  rw [h3] at h
  simp only [Except.bind] at h
  cases h4 : annsStep inp.train db3 with
  | error e => rw [h4] at h; exact Except.noConfusion h
  | ok db4 =>
  rw [h4] at h
  simp only [Except.bind] at h
  obtain ⟨s1i, s1l, s1t, s1v, s1a, s1s, s1n⟩ := imagesStep_ok h1
  obtain ⟨s2i, s2l, s2t, s2v, s2a, s2s, s2n⟩ := imagesStep_ok h2
  obtain ⟨s3i, s3l, s3t, s3v, s3a, s3s, s3n⟩ := imagesStep_ok h3
  obtain ⟨a4i, a4l, a4t, a4v, a4s, a4a, a4r⟩ := annsStep_ok h4
  obtain ⟨a5i, a5l, a5t, a5v, a5s, a5a, a5r⟩ := annsStep_ok h
  obtain ⟨c1, c2, c3, c4, c5⟩ :=
    insert_categories_fields (catsOf inp) (ensure_static_rows emptyDB)
  have hc1 : (insert_categories (ensure_static_rows emptyDB) (catsOf inp)).images = [] := c1
  have hc2 : (insert_categories (ensure_static_rows emptyDB) (catsOf inp)).annotators =
      [(1, "COCO", some "crowd")] := c2
  have hc3 : (insert_categories (ensure_static_rows emptyDB) (catsOf inp)).versions =
      [(1, "COCO 2017", some "2017-09-01")] := c3
  have hc4 : (insert_categories (ensure_static_rows emptyDB) (catsOf inp)).annotations = [] := c4
  have hc5 : (insert_categories (ensure_static_rows emptyDB) (catsOf inp)).splits = [] := c5
  have himg : db.images = specImagesGo [] (ingested inp) := by
    rw [a5i, a4i, s3i, s2i, s1i, hc1]
    unfold ingested
    rw [specGo_append, specGo_append]
  have hlcs : ∀ c ∈ db.labelClasses, ∃ k ∈ catsOf inp, c.label_class_id = k.id ∧ c.name = k.name := by
    intro c hc
    rw [a5l, a4l, s3l, s2l, s1l] at hc
    rcases insert_categories_mem (catsOf inp) (ensure_static_rows emptyDB) c hc with h' | h'
    · cases h'
    · exact h'
  have hannot : db.annotators = [(1, "COCO", some "crowd")] := by
    rw [a5t, a4t, s3t, s2t, s1t, hc2]
  have hver : db.versions = [(1, "COCO 2017", some "2017-09-01")] := by
    rw [a5v, a4v, s3v, s2v, s1v, hc3]
  have ha3 : db3.annotations = [] := by rw [s3a, s2a, s1a, hc4]
  have ha4 : db4.annotations = annRows 1 (trainAnns inp) := by
    rw [a4a, ha3]
    simp [maxAnnId, trainAnns]
  have hanns : db.annotations =
      annRows 1 (trainAnns inp) ++ annRows ((trainAnns inp).length + 1) (valAnns inp) := by
    rw [a5a, ha4, maxAnnId_annRows]
    rfl
  have hsp : ∀ p ∈ db.splits, splitAllowed p.2 := by
    intro p hp
    rw [a5s, a4s] at hp
    rcases s3s p hp with hp1 | hp1
    · rcases s2s p hp1 with hp2 | hp2
      · rcases s1s p hp2 with hp3 | hp3
        · rw [hc5] at hp3; cases hp3
        · rw [hp3.1]; exact hp3.2
      · rw [hp2.1]; exact hp2.2
    · rw [hp1.1]; exact hp1.2
  have hnd : db.splits.Nodup := by
    rw [a5s, a4s]
    exact s3n (s2n (s1n (by rw [hc5]; exact List.nodup_nil)))
  have hrefs : refsOk db := by
    refine a5r (a4r ?_)
    intro a ha
    rw [ha3] at ha
    cases ha
  exact ⟨himg, hlcs, hannot, hver, hanns, hsp, hnd, hrefs⟩

end COCO

theorem enumFromNat_mem_of_mem {α : Type} {a : α} :
    ∀ {l : List α}, a ∈ l → ∀ n : Nat, ∃ k, (k, a) ∈ enumFromNat n l := by
  intro l
  induction l with
  | nil => intro h; cases h
  | cons b rest ih =>
    intro h n
    cases h with
    | head => exact ⟨n, List.mem_cons_self _ _⟩
    | tail _ h' =>
      obtain ⟨k, hk⟩ := ih h' (n + 1)
      exact ⟨k, List.mem_cons_of_mem _ hk⟩

namespace OI

theorem chooseGo_le : ∀ (entries : List (String × InfoRow)) (chosen : List Chosen) (limit : Nat),
    chosen.length < limit → (choose_images_go limit entries chosen).length ≤ limit := by
  intro entries
  induction entries with
  | nil =>
    intro chosen limit h
    simpa [choose_images_go] using Nat.le_of_lt h
  | cons e rest ih =>
    intro chosen limit h
    obtain ⟨split, r⟩ := e
    by_cases hc : ∃ c ∈ chosen, c.imageID = r.imageID
    · simp only [choose_images_go, if_pos hc]
      exact ih chosen limit h
    · cases hu : fileUrl r with
      | none =>
        simp only [choose_images_go, if_neg hc, hu]
        exact ih chosen limit h
      | some url =>
        simp only [choose_images_go, if_neg hc, hu]
        by_cases hl : limit ≤ (chosen ++ [(⟨r.imageID, split, url⟩ : Chosen)]).length
        · rw [if_pos hl]
          simp only [List.length_append, List.length_singleton]
          omega
        · rw [if_neg hl]
          refine ih _ limit ?_
          simp only [List.length_append, List.length_singleton] at hl ⊢
          omega

theorem chooseGo_len : ∀ (entries : List (String × InfoRow)) (chosen : List Chosen) (limit : Nat),
    (choose_images_go limit entries chosen).length ≤ chosen.length + entries.length := by
  intro entries
  induction entries with
  | nil =>
    intro chosen limit
    simp [choose_images_go]
  | cons e rest ih =>
    intro chosen limit
    obtain ⟨split, r⟩ := e
    by_cases hc : ∃ c ∈ chosen, c.imageID = r.imageID
    · simp only [choose_images_go, if_pos hc, List.length_cons]
      have := ih chosen limit
      omega
    · cases hu : fileUrl r with
      | none =>
        simp only [choose_images_go, if_neg hc, hu, List.length_cons]
        have := ih chosen limit
        omega
      | some url =>
        simp only [choose_images_go, if_neg hc, hu, List.length_cons]
        by_cases hl : limit ≤ (chosen ++ [(⟨r.imageID, split, url⟩ : Chosen)]).length
        · rw [if_pos hl]
          simp only [List.length_append, List.length_singleton]
          omega
        · rw [if_neg hl]
          have := ih (chosen ++ [(⟨r.imageID, split, url⟩ : Chosen)]) limit
          simp only [List.length_append, List.length_singleton] at this
          omega

theorem chooseGo_nodup : ∀ (entries : List (String × InfoRow)) (chosen : List Chosen) (limit : Nat),
    (chosen.map (fun c => c.imageID)).Nodup →
    ((choose_images_go limit entries chosen).map (fun c => c.imageID)).Nodup := by
  intro entries
  induction entries with
  | nil => intro chosen limit h; simpa [choose_images_go] using h
  | cons e rest ih =>
    intro chosen limit h
    obtain ⟨split, r⟩ := e
    by_cases hc : ∃ c ∈ chosen, c.imageID = r.imageID
    · simp only [choose_images_go, if_pos hc]
      exact ih chosen limit h
    · cases hu : fileUrl r with
      | none =>
        simp only [choose_images_go, if_neg hc, hu]
        exact ih chosen limit h
      | some url =>
        have hnd : ((chosen ++ [(⟨r.imageID, split, url⟩ : Chosen)]).map (fun c => c.imageID)).Nodup := by
          simp only [List.map_append, List.map_cons, List.map_nil]
          rw [List.nodup_append]
          refine ⟨h, List.nodup_singleton _, fun x hx hx' => ?_⟩
          obtain ⟨c, hcm, hcid⟩ := List.mem_map.mp hx
          simp only [List.mem_singleton] at hx'
          exact hc ⟨c, hcm, by rw [hcid, hx']⟩
        simp only [choose_images_go, if_neg hc, hu]
        by_cases hl : limit ≤ (chosen ++ [(⟨r.imageID, split, url⟩ : Chosen)]).length
        · rw [if_pos hl]; exact hnd
        · rw [if_neg hl]; exact ih _ limit hnd

theorem findFirstUrl_spec : ∀ {l : List (String × InfoRow)} {i : String} {e : String × InfoRow},
    findFirstUrl l i = some e →
    e ∈ l ∧ e.2.imageID = i ∧ (fileUrl e.2).isSome = true := by
  intro l
  induction l with
  | nil => intro i e h; cases h
  | cons f rest ih =>
    intro i e h
    unfold findFirstUrl at h
    split at h
    · rename_i hcond
      injection h with h; subst h
      exact ⟨List.mem_cons_self _ _, hcond.1, hcond.2⟩
    · obtain ⟨hm, h1, h2⟩ := ih h
      exact ⟨List.mem_cons_of_mem _ hm, h1, h2⟩

theorem chooseGo_firstWins :
    ∀ (entries : List (String × InfoRow)) (chosen : List Chosen) (limit : Nat) (c : Chosen),
    c ∈ choose_images_go limit entries chosen →
    c ∈ chosen ∨ ((∀ c' ∈ chosen, c'.imageID ≠ c.imageID) ∧
      ∃ e, findFirstUrl entries c.imageID = some e ∧ e.1 = c.split ∧
        e.2.imageID = c.imageID ∧ fileUrl e.2 = some c.url) := by
  intro entries
  induction entries with
  | nil =>
    intro chosen limit c h
    exact Or.inl (by simpa [choose_images_go] using h)
  | cons e rest ih =>
    intro chosen limit c h
    obtain ⟨split, r⟩ := e
    by_cases hc : ∃ c' ∈ chosen, c'.imageID = r.imageID
    · simp only [choose_images_go, if_pos hc] at h
      rcases ih chosen limit c h with h' | ⟨hnot, e', he', h1, h2, h3⟩
      · exact Or.inl h'
      · refine Or.inr ⟨hnot, e', ?_, h1, h2, h3⟩
        have hne : ¬((split, r).2.imageID = c.imageID ∧ (fileUrl (split, r).2).isSome = true) := by
          rintro ⟨heq, _⟩
          obtain ⟨c', hc', hcid⟩ := hc
          exact hnot c' hc' (hcid.trans heq)
        simp only [findFirstUrl, if_neg hne]
        exact he'
    · cases hu : fileUrl r with
      | none =>
        simp only [choose_images_go, if_neg hc, hu] at h
        rcases ih chosen limit c h with h' | ⟨hnot, e', he', h1, h2, h3⟩
        · exact Or.inl h'
        · refine Or.inr ⟨hnot, e', ?_, h1, h2, h3⟩
          have hne : ¬((split, r).2.imageID = c.imageID ∧ (fileUrl (split, r).2).isSome = true) := by
            rintro ⟨_, hs⟩
            rw [hu] at hs
            cases hs
          simp only [findFirstUrl, if_neg hne]
          exact he'
      | some url =>
        simp only [choose_images_go, if_neg hc, hu] at h
        have hnewcase : ∀ c : Chosen, c = ⟨r.imageID, split, url⟩ →
            (∀ c' ∈ chosen, c'.imageID ≠ c.imageID) ∧
            ∃ e, findFirstUrl ((split, r) :: rest) c.imageID = some e ∧ e.1 = c.split ∧
              e.2.imageID = c.imageID ∧ fileUrl e.2 = some c.url := by
          intro c hceq
          constructor
          · intro c' hc' heq
            exact hc ⟨c', hc', by rw [heq, hceq]⟩
          · refine ⟨(split, r), ?_, by rw [hceq], by rw [hceq], by rw [hceq, hu]⟩
            have hcond : (split, r).2.imageID = c.imageID ∧
                (fileUrl (split, r).2).isSome = true :=
              ⟨by rw [hceq], by rw [hu]; rfl⟩
            simp only [findFirstUrl, if_pos hcond]
        by_cases hl : limit ≤ (chosen ++ [(⟨r.imageID, split, url⟩ : Chosen)]).length
        · rw [if_pos hl] at h
          rcases List.mem_append.mp h with h' | h'
          · exact Or.inl h'
          · exact Or.inr (hnewcase c (List.mem_singleton.mp h'))
        · rw [if_neg hl] at h
          rcases ih _ limit c h with h' | ⟨hnot, e', he', h1, h2, h3⟩
          · rcases List.mem_append.mp h' with h'' | h''
            · exact Or.inl h''
            · exact Or.inr (hnewcase c (List.mem_singleton.mp h''))
          · have hnot0 : ∀ c' ∈ chosen, c'.imageID ≠ c.imageID :=
              fun c' hc' => hnot c' (List.mem_append_left _ hc')
            have hnotnew : (⟨r.imageID, split, url⟩ : Chosen).imageID ≠ c.imageID :=
              hnot _ (List.mem_append_right _ (List.mem_singleton_self _))
            refine Or.inr ⟨hnot0, e', ?_, h1, h2, h3⟩
            have hne : ¬((split, r).2.imageID = c.imageID ∧
                (fileUrl (split, r).2).isSome = true) := by
              rintro ⟨heq, _⟩
              exact hnotnew heq
            simp only [findFirstUrl, if_neg hne]
            exact he'

theorem imageLoop_eq : ∀ (n : Nat) (l : List Chosen),
    imageLoop n l =
      ((enumFromNat n l).map (fun p => (⟨p.1, p.2.url, none, none⟩ : ImageRow)),
       (enumFromNat n l).map (fun p => (p.1, p.2.split)),
       (enumFromNat n l).map (fun p => (p.2.imageID, p.1))) := by
  intro n l
  induction l generalizing n with
  | nil => rfl
  | cons c rest ih =>
    simp only [imageLoop, ih (n + 1), enumFromNat, List.map_cons]

end OI

namespace OI

theorem boxLoop_inv (midToName : List (String × String)) (imap : List (String × Nat)) :
    ∀ (entries : List (String × BoxRow)) (st : BoxState),
    boxInv imap st → boxInv imap (boxLoop midToName imap st entries) := by
  intro entries
  induction entries with
  | nil => intro st h; exact h
  | cons e rest ih =>
    intro st h
    obtain ⟨sp, b⟩ := e
    obtain ⟨hmap, hann⟩ := h
    cases him : lookupNat imap b.imageID with
    | none =>
      simp only [boxLoop, him]
      exact ih st ⟨hmap, hann⟩
    | some imgInt =>
      cases hlb : lookupNat st.labelToInt b.labelName with
      | some labelInt =>
        simp only [boxLoop, him, hlb]
        refine ih _ ⟨hmap, ?_⟩
        intro a ha
        rcases List.mem_append.mp ha with ha' | ha'
        · exact hann a ha'
        · rw [List.mem_singleton.mp ha']
          exact ⟨⟨(b.imageID, imgInt), lookupNat_some_mem him, rfl⟩, rfl, rfl,
            hmap (b.labelName, labelInt) (lookupNat_some_mem hlb), rfl, rfl, rfl, rfl, rfl⟩
      | none =>
        simp only [boxLoop, him, hlb]
        refine ih _ ⟨?_, ?_⟩
        · intro p hp
          rcases List.mem_append.mp hp with hp' | hp'
          · obtain ⟨q, hq, hq1⟩ := hmap p hp'
            exact ⟨q, List.mem_append_left _ hq, hq1⟩
          · rw [List.mem_singleton.mp hp']
            exact ⟨(st.nextLabelInt, (lookupStr midToName b.labelName).getD b.labelName),
              List.mem_append_right _ (List.mem_singleton_self _), rfl⟩
        · intro a ha
          rcases List.mem_append.mp ha with ha' | ha'
          · obtain ⟨hi, hv, ht, ⟨q, hq, hq1⟩, hrest⟩ := hann a ha'
            exact ⟨hi, hv, ht, ⟨q, List.mem_append_left _ hq, hq1⟩, hrest⟩
          · rw [List.mem_singleton.mp ha']
            exact ⟨⟨(b.imageID, imgInt), lookupNat_some_mem him, rfl⟩, rfl, rfl,
              ⟨(st.nextLabelInt, (lookupStr midToName b.labelName).getD b.labelName),
                List.mem_append_right _ (List.mem_singleton_self _), rfl⟩,
              rfl, rfl, rfl, rfl, rfl⟩

theorem boxLoop_len (midToName : List (String × String)) (imap : List (String × Nat)) :
    ∀ (entries : List (String × BoxRow)) (st : BoxState),
    (boxLoop midToName imap st entries).annotations.length =
      st.annotations.length +
        entries.countP (fun e => (lookupNat imap e.2.imageID).isSome) := by
  intro entries
  induction entries with
  | nil => intro st; simp [boxLoop]
  | cons e rest ih =>
    intro st
    obtain ⟨sp, b⟩ := e
    cases him : lookupNat imap b.imageID with
    | none =>
      simp only [boxLoop, him]
      rw [ih st]
      simp [List.countP_cons, him]
    | some imgInt =>
      cases hlb : lookupNat st.labelToInt b.labelName with
      | some labelInt =>
        simp only [boxLoop, him, hlb]
        rw [ih _]
        simp [List.countP_cons, him, List.length_append]
        omega
      | none =>
        simp only [boxLoop, him, hlb]
        rw [ih _]
        simp [List.countP_cons, him, List.length_append]
        omega

theorem boxLoop_filter (midToName : List (String × String)) (imap : List (String × Nat))
    (bad : String) (hbad : ∀ p ∈ imap, p.1 ≠ bad) :
    ∀ (entries : List (String × BoxRow)) (st : BoxState),
    boxLoop midToName imap st (entries.filter (fun e => !(e.2.imageID == bad))) =
      boxLoop midToName imap st entries := by
  intro entries
  induction entries with
  | nil => intro st; rfl
  | cons e rest ih =>
    intro st
    obtain ⟨sp, b⟩ := e
    by_cases heq : b.imageID = bad
    · have hfe : (!(((sp, b) : String × BoxRow).2.imageID == bad)) = false := by
        simp [heq]
      have him : lookupNat imap b.imageID = none := by
        refine lookupNat_none_of_not_mem ?_
        intro p hp h'
        exact hbad p hp (by rw [h', heq])
      rw [List.filter_cons]
      simp only [hfe]
      simp only [boxLoop, him]
      exact ih st
    · have hfe : (!(((sp, b) : String × BoxRow).2.imageID == bad)) = true := by
        simp [heq]
      rw [List.filter_cons]
      simp only [hfe, if_pos]
      cases him : lookupNat imap b.imageID with
      | none =>
        simp only [boxLoop, him]
        exact ih st
      | some imgInt =>
        cases hlb : lookupNat st.labelToInt b.labelName with
        | some labelInt =>
          simp only [boxLoop, him, hlb]
          exact ih _
        | none =>
          simp only [boxLoop, him, hlb]
          exact ih _

theorem buildDb_images (inp : Input) :
    (buildDb inp).images =
      (enumFromNat 1 (choose_images (infoEntries inp) TARGET_IMAGE_COUNT)).map
        (fun p => (⟨p.1, p.2.url, none, none⟩ : ImageRow)) := by
  simp only [buildDb, imageLoop_eq]

theorem buildDb_splits (inp : Input) :
    (buildDb inp).splits =
      (enumFromNat 1 (choose_images (infoEntries inp) TARGET_IMAGE_COUNT)).map
        (fun p => (p.1, p.2.split)) := by
  simp only [buildDb, imageLoop_eq]

theorem buildDb_versions (inp : Input) :
    (buildDb inp).versions = [(1, DATASET_NAME, some "2022-10-01")] := by
  simp only [buildDb, imageLoop_eq]

theorem buildDb_annotators (inp : Input) :
    (buildDb inp).annotators = [(1, "OpenImages", some "verified/mixed")] := by
  simp only [buildDb, imageLoop_eq]

theorem buildDb_labelClasses (inp : Input) :
    (buildDb inp).labelClasses =
      (boxLoop (read_class_names inp.classDesc)
        ((enumFromNat 1 (choose_images (infoEntries inp) TARGET_IMAGE_COUNT)).map
          (fun p => (p.2.imageID, p.1)))
        ⟨[], 1, 1, [], []⟩ (boxEntries inp)).labelClasses := by
  simp only [buildDb, imageLoop_eq]

theorem buildDb_annotations (inp : Input) :
    (buildDb inp).annotations =
      (boxLoop (read_class_names inp.classDesc)
        ((enumFromNat 1 (choose_images (infoEntries inp) TARGET_IMAGE_COUNT)).map
          (fun p => (p.2.imageID, p.1)))
        ⟨[], 1, 1, [], []⟩ (boxEntries inp)).annotations := by
  simp only [buildDb, imageLoop_eq]

theorem boxInv_buildDb (inp : Input) :
    boxInv
      ((enumFromNat 1 (choose_images (infoEntries inp) TARGET_IMAGE_COUNT)).map
        (fun p => (p.2.imageID, p.1)))
      (boxLoop (read_class_names inp.classDesc)
        ((enumFromNat 1 (choose_images (infoEntries inp) TARGET_IMAGE_COUNT)).map
          (fun p => (p.2.imageID, p.1)))
        ⟨[], 1, 1, [], []⟩ (boxEntries inp)) := by
  refine boxLoop_inv _ _ _ _ ⟨?_, ?_⟩
  · intro p hp; cases hp
  · intro a ha; cases ha

theorem buildDb_refs (inp : Input) : refsOk (buildDb inp) := by
  intro a ha
  rw [buildDb_annotations] at ha
  obtain ⟨⟨p, hp, hp2⟩, hv, ht, ⟨q, hq, hq1⟩, _⟩ := (boxInv_buildDb inp).2 a ha
  refine ⟨?_, ?_, ?_, ?_⟩
  · obtain ⟨e, he, heq⟩ := List.mem_map.mp hp
    refine ⟨⟨e.1, e.2.url, none, none⟩, ?_, ?_⟩
    · rw [buildDb_images]
      exact List.mem_map.mpr ⟨e, he, rfl⟩
    · show e.1 = a.image_id
      rw [← hp2, ← heq]
  · exact ⟨(1, DATASET_NAME, some "2022-10-01"),
      by rw [buildDb_versions]; exact List.mem_singleton_self _, hv.symm⟩
  · exact ⟨(1, "OpenImages", some "verified/mixed"),
      by rw [buildDb_annotators]; exact List.mem_singleton_self _, ht.symm⟩
  · exact ⟨q, by rw [buildDb_labelClasses]; exact hq, hq1⟩

end OI

theorem countP_congr' {α : Type} (p q : α → Bool) :
    ∀ l : List α, (∀ a ∈ l, p a = q a) → l.countP p = l.countP q := by
  intro l
  induction l with
  | nil => intro _; rfl
  | cons a rest ih =>
    intro h
    rw [List.countP_cons, List.countP_cons, h a (List.mem_cons_self _ _),
      ih (fun b hb => h b (List.mem_cons_of_mem _ hb))]

namespace OI

theorem chooseGo_filter_url :
    ∀ (entries : List (String × InfoRow)) (chosen : List Chosen) (limit : Nat),
    choose_images_go limit (entries.filter (fun e => (fileUrl e.2).isSome)) chosen =
      choose_images_go limit entries chosen := by
  intro entries
  induction entries with
  | nil => intro chosen limit; rfl
  | cons e rest ih =>
    intro chosen limit
    obtain ⟨sp, r⟩ := e
    cases hu : fileUrl r with
    | none =>
      have hfe : ((fileUrl ((sp, r) : String × InfoRow).2).isSome) = false := by
        show (fileUrl r).isSome = false
        rw [hu]; rfl
      rw [List.filter_cons]
      simp only [hfe, Bool.false_eq_true, if_false]
      by_cases hc : ∃ c ∈ chosen, c.imageID = r.imageID
      · rw [ih chosen limit]
        simp only [choose_images_go, if_pos hc]
      · rw [ih chosen limit]
        simp only [choose_images_go, if_neg hc, hu]
    | some url =>
      have hfe : ((fileUrl ((sp, r) : String × InfoRow).2).isSome) = true := by
        show (fileUrl r).isSome = true
        rw [hu]; rfl
      rw [List.filter_cons]
      simp only [hfe, if_true]
      by_cases hc : ∃ c ∈ chosen, c.imageID = r.imageID
      · simp only [choose_images_go, if_pos hc]
        exact ih chosen limit
      · simp only [choose_images_go, if_neg hc, hu]
        by_cases hl : limit ≤ (chosen ++ [(⟨r.imageID, sp, url⟩ : Chosen)]).length
        · rw [if_pos hl, if_pos hl]
        · rw [if_neg hl, if_neg hl]
          exact ih _ limit

theorem choose_filter_url (entries : List (String × InfoRow)) (limit : Nat) :
    choose_images (entries.filter (fun e => (fileUrl e.2).isSome)) limit =
      choose_images entries limit := by
  unfold choose_images
  exact chooseGo_filter_url entries [] limit

theorem filter_url_of_bad (bad : String) (l : List (String × InfoRow))
    (h : ∀ e ∈ l, e.2.imageID = bad → fileUrl e.2 = none) :
    (l.filter (fun e => !(e.2.imageID == bad))).filter (fun e => (fileUrl e.2).isSome) =
      l.filter (fun e => (fileUrl e.2).isSome) := by
  rw [List.filter_comm]
  apply List.filter_eq_self.mpr
  intro e he
  obtain ⟨hel, hurl⟩ := List.mem_filter.mp he
  by_cases heq : e.2.imageID = bad
  · rw [h e hel heq] at hurl
    cases hurl
  · simp [heq]

theorem infoEntries_splits (inp : Input) :
    ∀ e ∈ infoEntries inp, e.1 = "train" ∨ e.1 = "validation" ∨ e.1 = "test" := by
  intro e he
  unfold infoEntries at he
  rcases List.mem_append.mp he with h | h
  · rcases List.mem_append.mp h with h' | h'
    · obtain ⟨r, _, hr⟩ := List.mem_map.mp h'
      rw [← hr]
      exact Or.inl rfl
    · obtain ⟨r, _, hr⟩ := List.mem_map.mp h'
      rw [← hr]
      exact Or.inr (Or.inl rfl)
  · obtain ⟨r, _, hr⟩ := List.mem_map.mp h
    rw [← hr]
    exact Or.inr (Or.inr rfl)

theorem lookup_enum_any (picked : List Chosen) (n : Nat) (oid : String) :
    (lookupNat ((enumFromNat n picked).map (fun p => (p.2.imageID, p.1))) oid).isSome =
      picked.any (fun c => c.imageID == oid) := by
  by_cases hex : ∃ p ∈ (enumFromNat n picked).map (fun p => (p.2.imageID, p.1)), p.1 = oid
  · rw [lookupNat_isSome_iff.mpr hex]
    obtain ⟨p, hp, hp1⟩ := hex
    obtain ⟨q, hq, hq1⟩ := List.mem_map.mp hp
    have hqm : q.2 ∈ picked := enumFromNat_mem hq
    have : q.2.imageID = oid := by rw [← hp1, ← hq1]
    symm
    rw [List.any_eq_true]
    exact ⟨q.2, hqm, beq_iff_eq.mpr this⟩
  · have h1 : (lookupNat ((enumFromNat n picked).map (fun p => (p.2.imageID, p.1))) oid).isSome = false := by
      rw [← Bool.not_eq_true]
      intro hs
      exact hex (lookupNat_isSome_iff.mp hs)
    rw [h1]
    symm
    rw [List.any_eq_false]
    intro c hc hbeq
    have hcid : c.imageID = oid := beq_iff_eq.mp hbeq
    obtain ⟨k, hk⟩ := enumFromNat_mem_of_mem hc n
    exact hex ⟨(c.imageID, k), List.mem_map.mpr ⟨(k, c), hk, rfl⟩, hcid⟩

end OI

theorem takeAppendLeft {α : Type} : ∀ (l₁ l₂ : List α), (l₁ ++ l₂).take l₁.length = l₁ := by
  intro l₁ l₂
  induction l₁ with
  | nil => rfl
  | cons a l ih => simp [List.take, ih]

namespace VOC

theorem insertSplitRow_spec (db : DB) (imageId : Nat) (s : String) :
    (insertSplitRow db imageId s).images = db.images ∧
    (insertSplitRow db imageId s).labelClasses = db.labelClasses ∧
    (insertSplitRow db imageId s).annotators = db.annotators ∧
    (insertSplitRow db imageId s).versions = db.versions ∧
    (insertSplitRow db imageId s).annotations = db.annotations ∧
    (∀ p ∈ (insertSplitRow db imageId s).splits,
      p ∈ db.splits ∨ (p = (imageId, s) ∧ splitAllowed s)) ∧
    (db.splits.Nodup → (insertSplitRow db imageId s).splits.Nodup) := by
  unfold insertSplitRow
  split
  · exact ⟨rfl, rfl, rfl, rfl, rfl, fun p hp => Or.inl hp, fun h => h⟩
  · rename_i hdup
    split
    · exact ⟨rfl, rfl, rfl, rfl, rfl, fun p hp => Or.inl hp, fun h => h⟩
    · rename_i hallow
      rw [not_not] at hallow
      refine ⟨rfl, rfl, rfl, rfl, rfl, ?_, ?_⟩
      · intro p hp
        rcases List.mem_append.mp hp with h' | h'
        · exact Or.inl h'
        · exact Or.inr ⟨List.mem_singleton.mp h', hallow⟩
      · intro hnd
        rw [List.nodup_append]
        refine ⟨hnd, List.nodup_singleton _, fun x hx hx' => ?_⟩
        rw [List.mem_singleton.mp hx'] at hx
        exact hdup ⟨(imageId, s), hx, rfl, rfl⟩

theorem foldSplits_spec (inp : Input) (imageId : Nat) (stem : String) :
    ∀ (names : List String) (db : DB),
    (names.foldl (fun d s => if (splitIds inp s).contains stem then insertSplitRow d imageId s
      else d) db).images = db.images ∧
    (names.foldl (fun d s => if (splitIds inp s).contains stem then insertSplitRow d imageId s
      else d) db).labelClasses = db.labelClasses ∧
    (names.foldl (fun d s => if (splitIds inp s).contains stem then insertSplitRow d imageId s
      else d) db).annotators = db.annotators ∧
    (names.foldl (fun d s => if (splitIds inp s).contains stem then insertSplitRow d imageId s
      else d) db).versions = db.versions ∧
    (names.foldl (fun d s => if (splitIds inp s).contains stem then insertSplitRow d imageId s
      else d) db).annotations = db.annotations ∧
    (∀ p ∈ (names.foldl (fun d s => if (splitIds inp s).contains stem then
        insertSplitRow d imageId s else d) db).splits,
      p ∈ db.splits ∨ (p.1 = imageId ∧ splitAllowed p.2)) ∧
    (db.splits.Nodup → (names.foldl (fun d s => if (splitIds inp s).contains stem then
        insertSplitRow d imageId s else d) db).splits.Nodup) := by
  intro names
  induction names with
  | nil => intro db; exact ⟨rfl, rfl, rfl, rfl, rfl, fun p hp => Or.inl hp, fun h => h⟩
  | cons s names ih =>
    intro db
    simp only [List.foldl_cons]
    by_cases hs : (splitIds inp s).contains stem
    · rw [if_pos hs]
      obtain ⟨i1, i2, i3, i4, i5, i6, i7⟩ := insertSplitRow_spec db imageId s
      obtain ⟨f1, f2, f3, f4, f5, f6, f7⟩ := ih (insertSplitRow db imageId s)
      refine ⟨f1.trans i1, f2.trans i2, f3.trans i3, f4.trans i4, f5.trans i5, ?_, ?_⟩
      · intro p hp
        rcases f6 p hp with h' | h'
        · rcases i6 p h' with h'' | h''
          · exact Or.inl h''
          · refine Or.inr ⟨?_, ?_⟩
            · rw [h''.1]
            · rw [h''.1]; exact h''.2
        · exact Or.inr h'
      · intro hnd
        exact f7 (i7 hnd)
    · rw [if_neg hs]
      exact ih db

theorem seedLabels_mem_classes : ∀ p ∈ seedLabels, p.2 ∈ VOC_CLASSES := by decide

theorem tvmonitor_mem : (20, "tvmonitor") ∈ seedLabels := by decide

theorem processObjs_spec :
    ∀ (objs : List Obj) (db : DB) (imageId : Nat) (maskStr : Option String),
    lcInv db.labelClasses →
    (processObjs db imageId maskStr objs).images = db.images ∧
    (processObjs db imageId maskStr objs).annotators = db.annotators ∧
    (processObjs db imageId maskStr objs).versions = db.versions ∧
    (processObjs db imageId maskStr objs).splits = db.splits ∧
    lcInv (processObjs db imageId maskStr objs).labelClasses ∧
    (∃ e2, (processObjs db imageId maskStr objs).labelClasses = db.labelClasses ++ e2) ∧
    (∀ a ∈ (processObjs db imageId maskStr objs).annotations,
      a ∈ db.annotations ∨
      (a.image_id = imageId ∧ a.version_id = 1 ∧ a.annotator_id = 1 ∧
        (∃ q ∈ (processObjs db imageId maskStr objs).labelClasses, q.1 = a.label_class_id) ∧
        annShape a)) := by
  intro objs
  induction objs with
  | nil =>
    intro db imageId maskStr hlc
    exact ⟨rfl, rfl, rfl, rfl, hlc, ⟨[], by simp [processObjs]⟩, fun a ha => Or.inl ha⟩
  | cons o rest ih =>
    intro db imageId maskStr hlc
    cases hfind : db.labelClasses.find? (fun p => p.2 = o.name) with
    | some p =>
      have hg : getOrCreateLabel db o.name = (db, p.1) := by
        unfold getOrCreateLabel
        rw [hfind]
      have hpmem : p ∈ db.labelClasses := List.mem_of_find?_eq_some hfind
      simp only [processObjs, hg]
      have hlc2 : lcInv ({ db with annotations := db.annotations ++
          [⟨maxNatKey (db.annotations.map (fun a => a.annotation_id)) + 1, imageId, 1, 1, p.1,
            (truncBox o.bnd).map (fun b => b.1), (truncBox o.bnd).map (fun b => b.2.1),
            (truncBox o.bnd).map (fun b => b.2.2.1), (truncBox o.bnd).map (fun b => b.2.2.2),
            bboxStrOf (truncBox o.bnd), maskStr⟩] } : DB).labelClasses := hlc
      obtain ⟨r1, r2, r3, r4, r5, ⟨e2, r6⟩, r7⟩ := ih _ imageId maskStr hlc2
      refine ⟨r1, r2, r3, r4, r5, ⟨e2, r6⟩, ?_⟩
      intro a ha
      rcases r7 a ha with ha' | ha'
      · rcases List.mem_append.mp ha' with h'' | h''
        · exact Or.inl h''
        · rw [List.mem_singleton.mp h'']
          refine Or.inr ⟨rfl, rfl, rfl, ⟨p, ?_, rfl⟩, ?_⟩
          · rw [r6]
            exact List.mem_append_left _ hpmem
          · cases hb : truncBox o.bnd with
            | none => exact Or.inr ⟨rfl, rfl, rfl, rfl, rfl⟩
            | some q =>
              obtain ⟨qa, qb, qc, qd⟩ := q
              exact Or.inl ⟨rfl, rfl, rfl, rfl, rfl⟩
      · exact Or.inr ha'
    | none =>
      have hg : getOrCreateLabel db o.name =
          ({ db with labelClasses := db.labelClasses ++
            [(maxNatKey (db.labelClasses.map (fun p => p.1)) + 1, o.name)] },
           maxNatKey (db.labelClasses.map (fun p => p.1)) + 1) := by
        unfold getOrCreateLabel
        rw [hfind]
      have hnotmem : ∀ p ∈ db.labelClasses, ¬ p.2 = o.name := by
        intro p hp
        have := List.find?_eq_none.mp hfind p hp
        simpa using this
      have h20 : 20 < maxNatKey (db.labelClasses.map (fun p => p.1)) + 1 := by
        obtain ⟨⟨extra, hex, _⟩, _⟩ := hlc
        have htv : (20, "tvmonitor") ∈ db.labelClasses := by
          rw [hex]
          exact List.mem_append_left _ tvmonitor_mem
        have h20m : (20 : Nat) ∈ db.labelClasses.map (fun p => p.1) :=
          List.mem_map.mpr ⟨(20, "tvmonitor"), htv, rfl⟩
        have := le_maxNatKey h20m
        omega
      have hlc1 : lcInv (db.labelClasses ++
          [(maxNatKey (db.labelClasses.map (fun p => p.1)) + 1, o.name)]) := by
        obtain ⟨⟨extra, hex, hgt⟩, hnd⟩ := hlc
        refine ⟨⟨extra ++ [(maxNatKey (db.labelClasses.map (fun p => p.1)) + 1, o.name)],
          by rw [hex, List.append_assoc], ?_⟩, ?_⟩
        · intro p hp
          rcases List.mem_append.mp hp with h' | h'
          · exact hgt p h'
          · rw [List.mem_singleton.mp h']
            exact h20
        · simp only [List.map_append, List.map_cons, List.map_nil]
          rw [List.nodup_append]
          refine ⟨hnd, List.nodup_singleton _, fun x hx hx' => ?_⟩
          obtain ⟨p, hp, hp2⟩ := List.mem_map.mp hx
          rw [List.mem_singleton.mp hx'] at hp2
          exact hnotmem p hp hp2
      simp only [processObjs, hg]
      have hlc2 : lcInv ((⟨db.images,
          db.labelClasses ++
            [(maxNatKey (List.map (fun p => p.1) db.labelClasses) + 1, o.name)],
          db.annotators, db.versions,
          db.annotations ++
            [⟨maxNatKey (List.map (fun a => a.annotation_id) db.annotations) + 1,
              imageId, 1, 1,
              maxNatKey (List.map (fun p => p.1) db.labelClasses) + 1,
              Option.map (fun b => b.1) (truncBox o.bnd),
              Option.map (fun b => b.2.1) (truncBox o.bnd),
              Option.map (fun b => b.2.2.1) (truncBox o.bnd),
              Option.map (fun b => b.2.2.2) (truncBox o.bnd),
              bboxStrOf (truncBox o.bnd), maskStr⟩],
          db.splits⟩ : DB).labelClasses) := hlc1
      obtain ⟨r1, r2, r3, r4, r5, ⟨e2, r6⟩, r7⟩ := ih _ imageId maskStr hlc2
      refine ⟨r1, r2, r3, r4, r5, ?_, ?_⟩
      · refine ⟨[(maxNatKey (db.labelClasses.map (fun p => p.1)) + 1, o.name)] ++ e2, ?_⟩
        rw [← List.append_assoc]
        exact r6
      · intro a ha
        rcases r7 a ha with ha' | ha'
        · rcases List.mem_append.mp (show a ∈ db.annotations ++ _ from ha') with h'' | h''
          · exact Or.inl h''
          · rw [List.mem_singleton.mp h'']
            refine Or.inr ⟨rfl, rfl, rfl,
              ⟨(maxNatKey (db.labelClasses.map (fun p => p.1)) + 1, o.name), ?_, rfl⟩, ?_⟩
            · rw [r6]
              exact List.mem_append_left _ (List.mem_append_right _ (List.mem_singleton_self _))
            · cases hb : truncBox o.bnd with
              | none => exact Or.inr ⟨rfl, rfl, rfl, rfl, rfl⟩
              | some q =>
                obtain ⟨qa, qb, qc, qd⟩ := q
                exact Or.inl ⟨rfl, rfl, rfl, rfl, rfl⟩
        · exact Or.inr ha'

end VOC

namespace VOC

theorem insertSplits_spec (inp : Input) (imageId : Nat) (stem : String) (db : DB) :
    (insertSplits inp db imageId stem).images = db.images ∧
    (insertSplits inp db imageId stem).labelClasses = db.labelClasses ∧
    (insertSplits inp db imageId stem).annotators = db.annotators ∧
    (insertSplits inp db imageId stem).versions = db.versions ∧
    (insertSplits inp db imageId stem).annotations = db.annotations ∧
    (∀ p ∈ (insertSplits inp db imageId stem).splits,
      p ∈ db.splits ∨ (p.1 = imageId ∧ splitAllowed p.2)) ∧
    (db.splits.Nodup → (insertSplits inp db imageId stem).splits.Nodup) :=
  foldSplits_spec inp imageId stem split_names db

theorem processXml_ok {inp : Input} {db : DB} {x : Xml} {db' : DB}
    (h : processXml inp db x = .ok db') (hm : master db) :
    master db' ∧
    db'.images = db.images ++ [renderImage inp.root (db.images.length + 1) x] := by
  obtain ⟨hmax, hpnd, hlc, hver, hann, hrefs, hshape, hspall, hspnd⟩ := hm
  unfold processXml at h
  simp only [] at h
  split at h
  · cases h
  · rename_i hpath
    injection h with h
    subst h
    obtain ⟨f1, f2, f3, f4, f5, f6, f7⟩ := insertSplits_spec inp
      (maxNatKey (db.images.map (fun r => r.image_id)) + 1) (pathStem (filenameOf x))
      { db with images := db.images ++
        [renderImage inp.root (maxNatKey (db.images.map (fun r => r.image_id)) + 1) x] }
    obtain ⟨r1, r2, r3, r4, r5, ⟨e2, r6⟩, r7⟩ := processObjs_spec x.objects
      (insertSplits inp
        { db with images := db.images ++
          [renderImage inp.root (maxNatKey (db.images.map (fun r => r.image_id)) + 1) x] }
        (maxNatKey (db.images.map (fun r => r.image_id)) + 1) (pathStem (filenameOf x)))
      (maxNatKey (db.images.map (fun r => r.image_id)) + 1)
      (if inp.segStems.contains (pathStem (filenameOf x)) then
        some (inp.root ++ "/SegmentationClass/" ++ pathStem (filenameOf x) ++ ".png")
      else none)
      (by rw [f2]; exact hlc)
    have himgs : (processObjs
        (insertSplits inp
          { db with images := db.images ++
            [renderImage inp.root (maxNatKey (db.images.map (fun r => r.image_id)) + 1) x] }
          (maxNatKey (db.images.map (fun r => r.image_id)) + 1) (pathStem (filenameOf x)))
        (maxNatKey (db.images.map (fun r => r.image_id)) + 1)
        (if inp.segStems.contains (pathStem (filenameOf x)) then
          some (inp.root ++ "/SegmentationClass/" ++ pathStem (filenameOf x) ++ ".png")
        else none) x.objects).images =
        db.images ++
          [renderImage inp.root (maxNatKey (db.images.map (fun r => r.image_id)) + 1) x] := by
      rw [r1, f1]
    have hlcs' : ∃ e3, (processObjs
        (insertSplits inp
          { db with images := db.images ++
            [renderImage inp.root (maxNatKey (db.images.map (fun r => r.image_id)) + 1) x] }
          (maxNatKey (db.images.map (fun r => r.image_id)) + 1) (pathStem (filenameOf x)))
        (maxNatKey (db.images.map (fun r => r.image_id)) + 1)
        (if inp.segStems.contains (pathStem (filenameOf x)) then
          some (inp.root ++ "/SegmentationClass/" ++ pathStem (filenameOf x) ++ ".png")
        else none) x.objects).labelClasses = db.labelClasses ++ e3 := by
      refine ⟨e2, ?_⟩
      rw [r6, f2]
    obtain ⟨e3, hlcs3⟩ := hlcs'
    constructor
    · refine ⟨?_, ?_, ?_, ?_, ?_, ?_, ?_, ?_, ?_⟩
      · rw [himgs]
        simp only [List.map_append, List.map_cons, List.map_nil]
        rw [maxNatKey_snoc]
        show max (maxNatKey (db.images.map (fun r => r.image_id)))
            ((renderImage inp.root (maxNatKey (db.images.map (fun r => r.image_id)) + 1) x).image_id) =
          (db.images ++ [renderImage inp.root (maxNatKey (db.images.map (fun r => r.image_id)) + 1) x]).length
        have hid : (renderImage inp.root
            (maxNatKey (db.images.map (fun r => r.image_id)) + 1) x).image_id =
            maxNatKey (db.images.map (fun r => r.image_id)) + 1 := rfl
        rw [hid]
        simp only [List.length_append, List.length_singleton]
        omega
      · rw [himgs]
        simp only [List.map_append, List.map_cons, List.map_nil]
        rw [List.nodup_append]
        refine ⟨hpnd, List.nodup_singleton _, fun p hp hp' => ?_⟩
        obtain ⟨r, hr, hr2⟩ := List.mem_map.mp hp
        rw [List.mem_singleton.mp hp'] at hr2
        exact hpath ⟨r, hr, hr2⟩
      · exact r5
      · rw [r3, f4]; exact hver
      · rw [r2, f3]; exact hann
      · intro a ha
        rcases r7 a ha with ha' | ha'
        · rw [f5] at ha'
          obtain ⟨⟨r, hr, hrid⟩, ⟨v, hv, hv1⟩, ⟨t, ht, ht1⟩, ⟨q, hq, hq1⟩⟩ := hrefs a ha'
          refine ⟨⟨r, ?_, hrid⟩, ⟨v, by rw [r3, f4]; exact hv, hv1⟩,
            ⟨t, by rw [r2, f3]; exact ht, ht1⟩, ⟨q, ?_, hq1⟩⟩
          · rw [himgs]
            exact List.mem_append_left _ hr
          · rw [hlcs3]
            exact List.mem_append_left _ hq
        · obtain ⟨hai, hav, hat, ⟨q, hq, hq1⟩, _⟩ := ha'
          refine ⟨?_, ?_, ?_, ⟨q, hq, hq1⟩⟩
          · refine ⟨renderImage inp.root (maxNatKey (db.images.map (fun r => r.image_id)) + 1) x, ?_, ?_⟩
            · rw [himgs]
              exact List.mem_append_right _ (List.mem_singleton_self _)
            · rw [hai]; rfl
          · exact ⟨(1, "VOC2012", some "2012-05-11"), by rw [r3, f4]; exact hver, by rw [hav]⟩
          · exact ⟨(1, "VOC System", some "N/A"), by rw [r2, f3]; exact hann, by rw [hat]⟩
      · intro a ha
        rcases r7 a ha with ha' | ha'
        · rw [f5] at ha'
          exact hshape a ha'
        · exact ha'.2.2.2.2
      · intro p hp
        rw [r4] at hp
        rcases f6 p hp with hp' | hp'
        · exact hspall p hp'
        · exact hp'.2
      · rw [r4]
        exact f7 hspnd
    · rw [himgs, hmax]

theorem buildGo_ok (inp : Input) : ∀ (xmls : List Xml) (db db' : DB),
    master db → buildGo inp db xmls = .ok db' →
    master db' ∧
    db'.images = db.images ++
      (enumFromNat (db.images.length + 1) xmls).map (fun p => renderImage inp.root p.1 p.2) := by
  intro xmls
  induction xmls with
  | nil =>
    intro db db' hm h
    injection h with h
    subst h
    exact ⟨hm, by simp [enumFromNat]⟩
  | cons x rest ih =>
    intro db db' hm h
    unfold buildGo at h
    split at h
    · cases h
    · rename_i db1 hx
      obtain ⟨hm1, h1⟩ := processXml_ok hx hm
      obtain ⟨hm', h'⟩ := ih db1 db' hm1 h
      refine ⟨hm', ?_⟩
      rw [h', h1]
      simp only [List.length_append, List.length_singleton]
      simp only [enumFromNat, List.map_cons]
      rw [List.append_assoc]
      simp only [List.singleton_append]

theorem master_seeded : master seededDB := by
  refine ⟨rfl, by simp [seededDB], ⟨⟨[], by simp [seededDB], fun p hp => absurd hp (List.not_mem_nil p)⟩, ?_⟩,
    List.mem_singleton_self _, List.mem_singleton_self _, ?_, ?_, ?_, List.nodup_nil⟩
  · show ((seedLabels).map (fun p => p.2)).Nodup
    decide
  · intro a ha; cases ha
  · intro a ha; cases ha
  · intro s hs; cases hs

theorem build_db_ok {inp : Input} {db : DB} (h : build_db inp = .ok db) :
    master db ∧
    db.images = (enumFromNat 1 inp.xmls).map (fun p => renderImage inp.root p.1 p.2) := by
  obtain ⟨hm, hi⟩ := buildGo_ok inp inp.xmls seededDB db master_seeded h
  refine ⟨hm, ?_⟩
  rw [hi]
  rfl

end VOC

theorem enumPairsFst {α β : Type} (f : α → β) : ∀ (n : Nat) (l : List α),
    ((enumFromNat n l).map (fun p => (p.1, f p.2))).map Prod.fst = List.range' n l.length := by
  intro n l
  induction l generalizing n with
  | nil => rfl
  | cons a rest ih => simp [enumFromNat, List.range'_succ, ih]

theorem range'_nodup : ∀ (n s : Nat), (List.range' s n).Nodup ∧ ∀ a ∈ List.range' s n, s ≤ a := by
  intro n
  induction n with
  | zero => intro s; exact ⟨List.nodup_nil, fun a ha => absurd ha (List.not_mem_nil a)⟩
  | succ n ih =>
    intro s
    have hstep := ih (s + 1)
    have h1 : List.range' s (n + 1) = s :: List.range' (s + 1) n := rfl
    constructor
    · rw [h1, List.nodup_cons]
      refine ⟨fun hmem => ?_, hstep.1⟩
      have := hstep.2 s hmem
      omega
    · intro a ha
      rw [h1] at ha
      cases ha with
      | head => exact Nat.le_refl s
      | tail _ ha' =>
        have := hstep.2 a ha'
        omega

namespace COCO

theorem annRows_shape : ∀ (anns : List Ann) (n : Nat), ∀ row ∈ annRows n anns,
    row.xmin.isSome ∧ row.ymin.isSome ∧ row.xmax.isSome ∧ row.ymax.isSome ∧
    row.bbox.isSome := by
  intro anns
  induction anns with
  | nil => intro n row h; cases h
  | cons a rest ih =>
    intro n row h
    cases h with
    | head => exact ⟨rfl, rfl, rfl, rfl, rfl⟩
    | tail _ h' => exact ih (n + 1) row h'

end COCO

/-- Claim C1: for every converter run that completes successfully, every row
of the Annotation table has image_id, version_id, annotator_id and
label_class_id values each equal to the primary key of an existing row in,
respectively, the Image, DatasetVersion, Annotator and LabelClass tables of
the same database.  (The Open Images builder is total once its input files
are read; the COCO and VOC runs are fallible and quantified over successful
completion.) -/
theorem spec_C1 :
    (∀ (inp : COCO.Input) (db : COCO.DB), COCO.build inp = .ok db → COCO.refsOk db) ∧
    (∀ inp : OI.Input, OI.refsOk (OI.buildDb inp)) ∧
    (∀ (inp : VOC.Input) (db : VOC.DB), VOC.build_db inp = .ok db → VOC.refsOk db) := by
  refine ⟨?_, ?_, ?_⟩
  · intro inp db h
    exact (COCO.build_ok inp db h).2.2.2.2.2.2.2
  · exact OI.buildDb_refs
  · intro inp db h
    exact (VOC.build_db_ok h).1.2.2.2.2.2.1

theorem spec_C1_witness :
    COCO.build cocoW = .ok cocoWdb ∧ COCO.refsOk cocoWdb ∧
    OI.refsOk (OI.buildDb oiW) ∧
    VOC.build_db vocW = .ok vocWdb ∧ VOC.refsOk vocWdb :=
  ⟨rfl, spec_C1.1 cocoW cocoWdb rfl, spec_C1.2.1 oiW,
   rfl, spec_C1.2.2 vocW vocWdb rfl⟩

/-- Claim C2: per converter run, the Image table has exactly one row per
distinct natural key of the ingested image records — COCO: the source
integer id (the table equals the first-occurrence-wins reference
`specImagesGo`); Open Images: the original ImageID string of the selected
records, deduplicated before the cap is reached (ids are distinct, each
selection comes from the first info row with that ImageID and a usable URL);
VOC: the file path (one row per XML, paths distinct on success) — and the
row count never exceeds the number of source records (for Open Images,
additionally the configured cap). -/
theorem spec_C2 :
    (∀ (inp : COCO.Input) (db : COCO.DB), COCO.build inp = .ok db →
      db.images = COCO.specImagesGo [] (COCO.ingested inp) ∧
      (db.images.map (fun r => r.image_id)).Nodup ∧
      (∀ p ∈ COCO.ingested inp, ∃ row ∈ db.images, row.image_id = p.1.id) ∧
      (∀ row ∈ db.images, ∃ p ∈ COCO.ingested inp, row = COCO.renderImage p.1 p.2) ∧
      db.images.length ≤ (COCO.ingested inp).length) ∧
    (∀ inp : OI.Input,
      (OI.buildDb inp).images =
        (enumFromNat 1 (OI.choose_images (OI.infoEntries inp) OI.TARGET_IMAGE_COUNT)).map
          (fun p => (⟨p.1, p.2.url, none, none⟩ : OI.ImageRow)) ∧
      ((OI.choose_images (OI.infoEntries inp) OI.TARGET_IMAGE_COUNT).map
        (fun c => c.imageID)).Nodup ∧
      (∀ c ∈ OI.choose_images (OI.infoEntries inp) OI.TARGET_IMAGE_COUNT,
        ∃ e, OI.findFirstUrl (OI.infoEntries inp) c.imageID = some e ∧
          e.1 = c.split ∧ e.2.imageID = c.imageID ∧ OI.fileUrl e.2 = some c.url) ∧
      (OI.buildDb inp).images.length ≤ (OI.infoEntries inp).length ∧
      (OI.buildDb inp).images.length ≤ OI.TARGET_IMAGE_COUNT) ∧
    (∀ (inp : VOC.Input) (db : VOC.DB), VOC.build_db inp = .ok db →
      db.images = (enumFromNat 1 inp.xmls).map (fun p => VOC.renderImage inp.root p.1 p.2) ∧
      (db.images.map (fun r => r.file_path)).Nodup ∧
      db.images.length = inp.xmls.length) := by
  refine ⟨?_, ?_, ?_⟩
  · intro inp db h
    have himg := (COCO.build_ok inp db h).1
    refine ⟨himg, ?_, ?_, ?_, ?_⟩
    · rw [himg]
      exact COCO.specGo_nodup (COCO.ingested inp) [] (by simp)
    · intro p hp
      rw [himg]
      exact COCO.specGo_complete (COCO.ingested inp) [] p hp
    · intro row hrow
      rw [himg] at hrow
      rcases COCO.specGo_from (COCO.ingested inp) [] row hrow with h' | h'
      · cases h'
      · exact h'
    · rw [himg]
      have := COCO.specGo_len (COCO.ingested inp) []
      simpa using this
  · intro inp
    have hlen : (OI.buildDb inp).images.length =
        (OI.choose_images (OI.infoEntries inp) OI.TARGET_IMAGE_COUNT).length := by
      rw [OI.buildDb_images, List.length_map, enumFromNat_length]
    refine ⟨OI.buildDb_images inp, ?_, ?_, ?_, ?_⟩
    · exact OI.chooseGo_nodup (OI.infoEntries inp) [] OI.TARGET_IMAGE_COUNT (by simp)
    · intro c hc
      rcases OI.chooseGo_firstWins (OI.infoEntries inp) [] OI.TARGET_IMAGE_COUNT c hc with
        h' | ⟨_, e, he, h1, h2, h3⟩
      · cases h'
      · exact ⟨e, he, h1, h2, h3⟩
    · rw [hlen]
      have := OI.chooseGo_len (OI.infoEntries inp) [] OI.TARGET_IMAGE_COUNT
      simpa using this
    · rw [hlen]
      exact OI.chooseGo_le (OI.infoEntries inp) [] OI.TARGET_IMAGE_COUNT (by decide)
  · intro inp db h
    obtain ⟨hm, hi⟩ := VOC.build_db_ok h
    refine ⟨hi, hm.2.1, ?_⟩
    rw [hi, List.length_map, enumFromNat_length]

theorem spec_C2_witness :
    COCO.build cocoW = .ok cocoWdb ∧
    cocoWdb.images = COCO.specImagesGo [] (COCO.ingested cocoW) ∧
    (OI.buildDb oiW).images.length ≤ OI.TARGET_IMAGE_COUNT ∧
    VOC.build_db vocW = .ok vocWdb ∧
    vocWdb.images.length = vocW.xmls.length :=
  ⟨rfl, (spec_C2.1 cocoW cocoWdb rfl).1, (spec_C2.2.1 oiW).2.2.2.2,
   rfl, (spec_C2.2.2 vocW vocWdb rfl).2.2⟩

/-- Claim C3: for every Open Images run, the number of distinct images in
the output database is at most the configured TARGET_IMAGE_COUNT, every
Annotation row's image_id is one of the integer ids assigned to the picked
images, and exactly the bounding-box rows of selected images produce
Annotation rows (rows for unselected images are skipped). -/
theorem spec_C3 : ∀ inp : OI.Input,
    (OI.buildDb inp).images.length ≤ OI.TARGET_IMAGE_COUNT ∧
    (∀ a ∈ (OI.buildDb inp).annotations,
      ∃ r ∈ (OI.buildDb inp).images, r.image_id = a.image_id) ∧
    (OI.buildDb inp).annotations.length =
      (OI.boxEntries inp).countP (fun e =>
        (OI.choose_images (OI.infoEntries inp) OI.TARGET_IMAGE_COUNT).any
          (fun c => c.imageID == e.2.imageID)) := by
  intro inp
  refine ⟨?_, ?_, ?_⟩
  · rw [OI.buildDb_images, List.length_map, enumFromNat_length]
    exact OI.chooseGo_le (OI.infoEntries inp) [] OI.TARGET_IMAGE_COUNT (by decide)
  · intro a ha
    exact (OI.buildDb_refs inp a ha).1
  · rw [OI.buildDb_annotations]
    rw [OI.boxLoop_len]
    have hz : (([] : List OI.AnnRow)).length = 0 := rfl
    show (([] : List OI.AnnRow)).length + _ = _
    rw [hz, Nat.zero_add]
    apply countP_congr'
    intro e he
    exact OI.lookup_enum_any (OI.choose_images (OI.infoEntries inp) OI.TARGET_IMAGE_COUNT) 1
      e.2.imageID

theorem spec_C3_witness :
    (OI.buildDb oiW).images.length ≤ OI.TARGET_IMAGE_COUNT ∧
    (∃ r ∈ (OI.buildDb oiW).images, r.image_id = oiWann.image_id) :=
  ⟨(spec_C3 oiW).1, (spec_C3 oiW).2.1 oiWann (by decide)⟩

/-- Claim C4 counterexample: for the COCO annotation record with box
`[0, 0, 0.5, 0.5]` (image 1, category 1), the insert succeeds and stores
xmin = 0 and xmax = int(0 + 0.5) = 0, while the claimed relation
xmax = xmin + w would require the stored xmax to equal 0 + 0.5; integer
truncation of the sum is not addition of the ingredients. -/
theorem spec_C4_cex :
    (COCO.insert_annotations cocoC4db [cocoC4ann]).toOption.map
        (fun db => db.annotations.map (fun a => (a.xmin, a.xmax))) =
      some [(some 0, some 0)] ∧
    ¬ ((0 : Rat) = (0 : Rat) + cocoC4ann.w) := by
  constructor
  · decide
  · rw [← ratAdd_eq]
    decide

/-- Claim C4, amended: for every successfully inserted COCO annotation with
box `[x, y, w, h]`, the stored fields are xmin = int(x), ymin = int(y),
xmax = int(x + w), ymax = int(y + h) — the same integer truncation applied to
each derived field after exact addition.  The claimed equations
xmax = xmin + w and ymax = ymin + h hold when the coordinates are integers,
but not for fractional boxes (see the counterexample). -/
theorem spec_C4 : ∀ (db : COCO.DB) (anns : List COCO.Ann) (db' : COCO.DB),
    COCO.insert_annotations db anns = .ok db' →
    ∀ a ∈ anns, ∃ row ∈ db'.annotations,
      row.xmin = some (pyTrunc a.x) ∧ row.ymin = some (pyTrunc a.y) ∧
      row.xmax = some (pyTrunc (a.x + a.w)) ∧ row.ymax = some (pyTrunc (a.y + a.h)) ∧
      (∀ xi wi : Int, a.x = (xi : Rat) → a.w = (wi : Rat) →
        row.xmax = some (pyTrunc a.x + wi)) ∧
      (∀ yi hi : Int, a.y = (yi : Rat) → a.h = (hi : Rat) →
        row.ymax = some (pyTrunc a.y + hi)) := by
  intro db anns db' h a ha
  unfold COCO.insert_annotations at h
  obtain ⟨_, _, _, _, _, h6⟩ := COCO.annLoop_ok anns db db' _ h
  obtain ⟨k, hk⟩ := COCO.annRows_mem ha (COCO.maxAnnId db.annotations + 1)
  refine ⟨COCO.annRowOf k a, by rw [h6]; exact List.mem_append_right _ hk,
    rfl, rfl, by rw [← ratAdd_eq]; rfl, by rw [← ratAdd_eq]; rfl, ?_, ?_⟩
  · intro xi wi hx hw
    show some (pyTrunc (ratAdd a.x a.w)) = some (pyTrunc a.x + wi)
    rw [ratAdd_eq, hx, hw, pyTrunc_cast_add]
  · intro yi hi hy hh
    show some (pyTrunc (ratAdd a.y a.h)) = some (pyTrunc a.y + hi)
    rw [ratAdd_eq, hy, hh, pyTrunc_cast_add]

theorem spec_C4_witness :
    COCO.insert_annotations cocoC4db [cocoC4intAnn] = .ok cocoC4wdb ∧
    ∃ row ∈ cocoC4wdb.annotations,
      row.xmin = some (pyTrunc cocoC4intAnn.x) ∧
      row.ymin = some (pyTrunc cocoC4intAnn.y) ∧
      row.xmax = some (pyTrunc (cocoC4intAnn.x + cocoC4intAnn.w)) ∧
      row.ymax = some (pyTrunc (cocoC4intAnn.y + cocoC4intAnn.h)) ∧
      (∀ xi wi : Int, cocoC4intAnn.x = (xi : Rat) → cocoC4intAnn.w = (wi : Rat) →
        row.xmax = some (pyTrunc cocoC4intAnn.x + wi)) ∧
      (∀ yi hi : Int, cocoC4intAnn.y = (yi : Rat) → cocoC4intAnn.h = (hi : Rat) →
        row.ymax = some (pyTrunc cocoC4intAnn.y + hi)) :=
  ⟨rfl, spec_C4 cocoC4db [cocoC4intAnn] cocoC4wdb rfl cocoC4intAnn
    (List.mem_singleton_self _)⟩

/-- Claim C5: in every successful VOC run, the twenty canonical VOC class
names are seeded as LabelClass rows with ids 1..20 in list order (in
particular dog has id 12 and person has id 15), any class name outside that
list gets a row with an id greater than 20, and names are unique in the
table (so repeated annotations with the same name reuse the existing id). -/
theorem spec_C5 : ∀ (inp : VOC.Input) (db : VOC.DB), VOC.build_db inp = .ok db →
    db.labelClasses.take 20 = VOC.seedLabels ∧
    (12, "dog") ∈ db.labelClasses ∧
    (15, "person") ∈ db.labelClasses ∧
    (∀ p ∈ db.labelClasses, p.2 ∉ VOC.VOC_CLASSES → 20 < p.1) ∧
    (∀ p ∈ db.labelClasses, ∀ q ∈ db.labelClasses, p.2 = q.2 → p = q) := by
  intro inp db h
  obtain ⟨⟨extra, hex, hgt⟩, hnames⟩ := (VOC.build_db_ok h).1.2.2.1
  have hseedlen : VOC.seedLabels.length = 20 := by decide
  refine ⟨?_, ?_, ?_, ?_, ?_⟩
  · rw [hex, ← hseedlen]
    exact takeAppendLeft _ _
  · rw [hex]
    exact List.mem_append_left _ (by decide)
  · rw [hex]
    exact List.mem_append_left _ (by decide)
  · intro p hp hnot
    rw [hex] at hp
    rcases List.mem_append.mp hp with h' | h'
    · exact absurd (VOC.seedLabels_mem_classes p h') hnot
    · exact hgt p h'
  · intro p hp q hq hpq
    exact nodup_map_eq hnames hp hq hpq

theorem spec_C5_witness :
    VOC.build_db vocW = .ok vocWdb ∧
    vocWdb.labelClasses.take 20 = VOC.seedLabels ∧
    (12, "dog") ∈ vocWdb.labelClasses ∧ (15, "person") ∈ vocWdb.labelClasses :=
  ⟨rfl, (spec_C5 vocW vocWdb rfl).1, (spec_C5 vocW vocWdb rfl).2.1,
   (spec_C5 vocW vocWdb rfl).2.2.1⟩

/-- Claim C6: in every successful COCO run, the source dataset's integer
image and category ids are reused verbatim as surrogate keys (every Image
row's id is the id of an ingested image record and every LabelClass row is
an ingested category verbatim), and annotation ids are reassigned
sequentially from one past the table's maximum at each batch insert, so
that inserting the train then the val batch yields the consecutive,
collision-free ids 1, 2, ..., |train| + |val|. -/
theorem spec_C6 : ∀ (inp : COCO.Input) (db : COCO.DB), COCO.build inp = .ok db →
    db.annotations.map (fun a => a.annotation_id) =
      List.range' 1 ((COCO.trainAnns inp).length + (COCO.valAnns inp).length) ∧
    (∀ r ∈ db.images, ∃ p ∈ COCO.ingested inp, r.image_id = p.1.id) ∧
    (∀ c ∈ db.labelClasses, ∃ k ∈ COCO.catsOf inp,
      c.label_class_id = k.id ∧ c.name = k.name) := by
  intro inp db h
  obtain ⟨himg, hlcs, _, _, hanns, _, _, _⟩ := COCO.build_ok inp db h
  refine ⟨?_, ?_, hlcs⟩
  · rw [hanns, List.map_append, COCO.annRows_ids, COCO.annRows_ids]
    have hcomm : (COCO.trainAnns inp).length + 1 = 1 + (COCO.trainAnns inp).length := by
      omega
    rw [hcomm]
    exact range1_append _ 1 _
  · intro r hr
    rw [himg] at hr
    rcases COCO.specGo_from (COCO.ingested inp) [] r hr with h' | ⟨p, hp, hpr⟩
    · cases h'
    · refine ⟨p, hp, ?_⟩
      rw [hpr]
      rfl

theorem spec_C6_witness :
    COCO.build cocoW = .ok cocoWdb ∧
    cocoWdb.annotations.map (fun a => a.annotation_id) =
      List.range' 1 ((COCO.trainAnns cocoW).length + (COCO.valAnns cocoW).length) :=
  ⟨rfl, (spec_C6 cocoW cocoWdb rfl).1⟩

/-- Claim C7 counterexample: an Open Images run over one validation-subset
image-info row inserts the splits row (1, "validation").  "validation" is
not in the claimed fixed enumeration train/val/trainval/test, and the Open
Images schema's splits table carries no CHECK constraint to reject it. -/
theorem spec_C7_cex :
    (OI.buildDb oiC7inp).splits = [(1, "validation")] ∧
    "validation" ∉ (["train", "val", "trainval", "test"] : List String) := by
  constructor
  · decide
  · decide

/-- Claim C7, amended: in the COCO and VOC converters every splits row's
label lies in the fixed enumeration train/val/trainval/test (their schemas
CHECK it); in the Open Images converter the labels are drawn from
train/validation/test — with "validation" outside the claimed enumeration
(see the counterexample).  In all three, the composite primary key
(image_id, split) deduplicates: no two splits rows coincide. -/
theorem spec_C7 :
    (∀ (inp : COCO.Input) (db : COCO.DB), COCO.build inp = .ok db →
      (∀ s ∈ db.splits, splitAllowed s.2) ∧ db.splits.Nodup) ∧
    (∀ (inp : VOC.Input) (db : VOC.DB), VOC.build_db inp = .ok db →
      (∀ s ∈ db.splits, splitAllowed s.2) ∧ db.splits.Nodup) ∧
    (∀ inp : OI.Input,
      (∀ s ∈ (OI.buildDb inp).splits,
        s.2 = "train" ∨ s.2 = "validation" ∨ s.2 = "test") ∧
      (OI.buildDb inp).splits.Nodup) := by
  refine ⟨?_, ?_, ?_⟩
  · intro inp db h
    have hb := COCO.build_ok inp db h
    exact ⟨hb.2.2.2.2.2.1, hb.2.2.2.2.2.2.1⟩
  · intro inp db h
    have hm := (VOC.build_db_ok h).1
    exact ⟨hm.2.2.2.2.2.2.2.1, hm.2.2.2.2.2.2.2.2⟩
  · intro inp
    constructor
    · intro s hs
      rw [OI.buildDb_splits] at hs
      obtain ⟨q, hq, hq2⟩ := List.mem_map.mp hs
      have hqm : q.2 ∈ OI.choose_images (OI.infoEntries inp) OI.TARGET_IMAGE_COUNT :=
        enumFromNat_mem hq
      rcases OI.chooseGo_firstWins (OI.infoEntries inp) [] OI.TARGET_IMAGE_COUNT q.2 hqm with
        h' | ⟨_, e, he, h1, _, _⟩
      · cases h'
      · obtain ⟨hmem, _, _⟩ := OI.findFirstUrl_spec he
        have hs2 : s.2 = e.1 := by
          rw [← hq2, h1]
        rw [hs2]
        exact OI.infoEntries_splits inp e hmem
    · have h1 : ((OI.buildDb inp).splits).map Prod.fst =
          List.range' 1 (OI.choose_images (OI.infoEntries inp) OI.TARGET_IMAGE_COUNT).length := by
        rw [OI.buildDb_splits]
        exact enumPairsFst (fun c : OI.Chosen => c.split) 1 _
      have h2 : (((OI.buildDb inp).splits).map Prod.fst).Nodup := by
        rw [h1]
        exact (range'_nodup _ 1).1
      exact h2.of_map

theorem spec_C7_witness :
    COCO.build cocoW = .ok cocoWdb ∧
    (∀ s ∈ cocoWdb.splits, splitAllowed s.2) ∧
    VOC.build_db vocW = .ok vocWdb ∧ vocWdb.splits.Nodup ∧
    (OI.buildDb oiW).splits.Nodup :=
  ⟨rfl, (spec_C7.1 cocoW cocoWdb rfl).1, rfl, (spec_C7.2.1 vocW vocWdb rfl).2,
   (spec_C7.2.2 oiW).2⟩

/-- Claim C8 counterexample: an Open Images run over one selected image with
one bounding-box row stores its only Annotation row with all four numeric
fields xmin/ymin/xmax/ymax NULL and only the textual bbox present — the box
is not stored redundantly in both forms in all three converters. -/
theorem spec_C8_cex :
    (OI.buildDb oiC8inp).annotations.map
        (fun a => (a.xmin, a.ymin, a.xmax, a.ymax, a.bbox.isSome)) =
      [(none, none, none, none, true)] := by
  decide

/-- Claim C8, amended: COCO stores every Annotation box redundantly — all
four numeric fields and the textual (JSON) bbox are present; VOC stores
both forms when the XML object has a bndbox and stores all five as NULL
when it does not; Open Images stores only the textual bbox, leaving the
four numeric fields NULL on every row (see the counterexample). -/
theorem spec_C8 :
    (∀ (inp : COCO.Input) (db : COCO.DB), COCO.build inp = .ok db →
      ∀ a ∈ db.annotations, a.xmin.isSome ∧ a.ymin.isSome ∧ a.xmax.isSome ∧
        a.ymax.isSome ∧ a.bbox.isSome) ∧
    (∀ inp : OI.Input, ∀ a ∈ (OI.buildDb inp).annotations,
      a.xmin = none ∧ a.ymin = none ∧ a.xmax = none ∧ a.ymax = none ∧ a.bbox.isSome) ∧
    (∀ (inp : VOC.Input) (db : VOC.DB), VOC.build_db inp = .ok db →
      ∀ a ∈ db.annotations, VOC.annShape a) := by
  refine ⟨?_, ?_, ?_⟩
  · intro inp db h a ha
    have hanns := (COCO.build_ok inp db h).2.2.2.2.1
    rw [hanns] at ha
    rcases List.mem_append.mp ha with h' | h'
    · exact COCO.annRows_shape _ _ a h'
    · exact COCO.annRows_shape _ _ a h'
  · intro inp a ha
    rw [OI.buildDb_annotations] at ha
    have := (OI.boxInv_buildDb inp).2 a ha
    exact ⟨this.2.2.2.2.1, this.2.2.2.2.2.1, this.2.2.2.2.2.2.1,
      this.2.2.2.2.2.2.2.1, this.2.2.2.2.2.2.2.2⟩
  · intro inp db h a ha
    exact (VOC.build_db_ok h).1.2.2.2.2.2.2.1 a ha

theorem spec_C8_witness :
    COCO.build cocoW = .ok cocoWdb ∧
    (cocoWann.xmin.isSome ∧ cocoWann.ymin.isSome ∧ cocoWann.xmax.isSome ∧
      cocoWann.ymax.isSome ∧ cocoWann.bbox.isSome) ∧
    (oiWann.xmin = none ∧ oiWann.ymin = none ∧ oiWann.xmax = none ∧
      oiWann.ymax = none ∧ oiWann.bbox.isSome) ∧
    VOC.build_db vocW = .ok vocWdb ∧ VOC.annShape vocWann :=
  ⟨rfl, spec_C8.1 cocoW cocoWdb rfl cocoWann (by decide),
   spec_C8.2.1 oiW oiWann (by decide),
   rfl, spec_C8.2.2 vocW vocWdb rfl vocWann (by decide)⟩

/-- Claim C9: if any configured Open Images CSV path (class descriptions,
the three box files, the three image-info files) does not exist, `main`
raises a missing-input error naming a missing path, and since the check
precedes the output-file unlink and rebuild, a pre-existing output database
is left unchanged. -/
theorem spec_C9 :
    ∀ (existing : List String) (inp : OI.Input) (prev : Option OI.DB) (p : String),
    p ∈ OI.requiredPaths → p ∉ existing →
    (∃ q ∈ OI.requiredPaths, q ∉ existing ∧
      (OI.main existing inp prev).1 = .error ("Missing required CSV: " ++ q)) ∧
    (OI.main existing inp prev).2 = prev := by
  intro existing inp prev p hp hnp
  have hfind : ∃ q, OI.requiredPaths.find? (fun r => ¬ existing.contains r) = some q := by
    cases hf : OI.requiredPaths.find? (fun r => ¬ existing.contains r) with
    | some q => exact ⟨q, rfl⟩
    | none =>
      exfalso
      have := List.find?_eq_none.mp hf p hp
      simp only [decide_eq_true_eq, not_not] at this
      exact hnp (by simpa using this)
  obtain ⟨q, hq⟩ := hfind
  have hqpred := List.find?_some hq
  have hqmem := List.mem_of_find?_eq_some hq
  have hqnot : q ∉ existing := by
    simp only [decide_eq_true_eq] at hqpred
    intro hmem
    exact hqpred (by simpa using hmem)
  constructor
  · refine ⟨q, hqmem, hqnot, ?_⟩
    unfold OI.main OI.checkFiles
    rw [hq]
  · unfold OI.main OI.checkFiles
    rw [hq]

theorem spec_C9_witness :
    (∃ q ∈ OI.requiredPaths, q ∉ oiC9existing ∧
      (OI.main oiC9existing oiC7inp oiC9prev).1 = .error ("Missing required CSV: " ++ q)) ∧
    (OI.main oiC9existing oiC7inp oiC9prev).2 = oiC9prev :=
  spec_C9 oiC9existing oiC7inp oiC9prev OI.CLASS_DESCRIPTIONS (by decide) (by decide)

/-- Claim C10 counterexample: the train info CSV holds two rows for ImageID
"A" — the first with both URL fields missing, the second with a thumbnail
URL — and the run creates an Image row (id 1, path "u") and a splits row
for "A", against the claim that no Image or splits row is created for the
ImageID of a URL-less row. -/
theorem spec_C10_cex :
    ((⟨"A", none, none⟩ : OI.InfoRow) ∈ oiC10inp.trainInfo ∧
      OI.fileUrl ⟨"A", none, none⟩ = none) ∧
    (OI.buildDb oiC10inp).images.map (fun r => (r.image_id, r.file_path)) = [(1, "u")] ∧
    (OI.buildDb oiC10inp).splits = [(1, "train")] := by
  refine ⟨⟨?_, ?_⟩, ?_, ?_⟩ <;> decide

/-- Claim C10, amended: an image-info row with no usable URL is itself
silently skipped: `choose_images` gives the same selection when such rows
are removed.  If, additionally, no other info row for the same ImageID
carries a usable URL, then no image is selected for that ImageID (hence no
Image or splits row and no count toward the target), and removing that
ImageID's bounding-box rows leaves the output database unchanged — its
boxes were dropped. -/
theorem spec_C10 :
    (∀ (entries : List (String × OI.InfoRow)) (limit : Nat),
      OI.choose_images (entries.filter (fun e => (OI.fileUrl e.2).isSome)) limit =
        OI.choose_images entries limit) ∧
    (∀ (inp : OI.Input) (bad : String),
      (∀ e ∈ OI.infoEntries inp, e.2.imageID = bad → OI.fileUrl e.2 = none) →
      (∀ c ∈ OI.choose_images (OI.infoEntries inp) OI.TARGET_IMAGE_COUNT, c.imageID ≠ bad) ∧
      OI.buildDb inp = OI.buildDb (OI.dropBoxes inp bad)) := by
  constructor
  · intro entries limit
    exact OI.choose_filter_url entries limit
  · intro inp bad hyp
    have hnc : ∀ c ∈ OI.choose_images (OI.infoEntries inp) OI.TARGET_IMAGE_COUNT,
        c.imageID ≠ bad := by
      intro c hc hceq
      rcases OI.chooseGo_firstWins (OI.infoEntries inp) [] OI.TARGET_IMAGE_COUNT c hc with
        h' | ⟨_, e, he, _, _, h3⟩
      · cases h'
      · obtain ⟨hmem, hid, _⟩ := OI.findFirstUrl_spec he
        have : OI.fileUrl e.2 = none := hyp e hmem (by rw [hid, hceq])
        rw [this] at h3
        cases h3
    refine ⟨hnc, ?_⟩
    have hbadmap : ∀ p ∈ (enumFromNat 1
        (OI.choose_images (OI.infoEntries inp) OI.TARGET_IMAGE_COUNT)).map
          (fun p => (p.2.imageID, p.1)), p.1 ≠ bad := by
      intro p hp
      obtain ⟨q, hq, hq2⟩ := List.mem_map.mp hp
      have : q.2.imageID ≠ bad := hnc q.2 (enumFromNat_mem hq)
      rw [← hq2]
      exact this
    have hinfo : OI.infoEntries (OI.dropBoxes inp bad) = OI.infoEntries inp := rfl
    have hclass : (OI.dropBoxes inp bad).classDesc = inp.classDesc := rfl
    have hbox : OI.boxEntries (OI.dropBoxes inp bad) =
        (OI.boxEntries inp).filter (fun e => !(e.2.imageID == bad)) := by
      show (OI.dropBoxes inp bad).trainBoxes.map (fun r => ("train", r)) ++
          (OI.dropBoxes inp bad).valBoxes.map (fun r => ("validation", r)) ++
          (OI.dropBoxes inp bad).testBoxes.map (fun r => ("test", r)) = _
      unfold OI.dropBoxes OI.boxEntries
      simp only [List.filter_append, List.filter_map]
      rfl
    simp only [OI.buildDb, OI.imageLoop_eq, hinfo, hclass, hbox]
    rw [OI.boxLoop_filter _ _ bad hbadmap]

theorem spec_C10_witness :
    (∀ c ∈ OI.choose_images (OI.infoEntries oiC10winp) OI.TARGET_IMAGE_COUNT,
      c.imageID ≠ "A") ∧
    OI.buildDb oiC10winp = OI.buildDb (OI.dropBoxes oiC10winp "A") :=
  spec_C10.2 oiC10winp "A" (by decide)
